import Mathlib

/-!
Verification of the reassamble packet-reconstruction engine.

This file gives a shallow embedding, in Lean 4, of the three core modules of
the repository —

  * src/rust_core/src/decode/decode.rs      (frame decoder)
  * src/rust_core/src/stream/stream_tcp.rs  (per-shard TCP reassembler)
  * src/rust_core/src/defrag/defrag.rs      (IP defragmenter)

— and proves or refutes the frozen specification claims against it.

Modelling conventions:
  * machine integers are Nat with explicit reductions modulo 2^32 (u32) or
    2^16 (u16) exactly where the Rust code wraps (wrapping_add / wrapping_sub
    or an explicit cast);
  * byte buffers are List Nat;
  * DashMap / HashMap state becomes an association list, BTreeMap becomes a
    key-sorted association list (BTreeMap iteration order is key order);
  * Instant-typed timestamps become Nat parameters threaded through the
    functions that call Instant::now(); they feed only bookkeeping
    (last_seen / last_update / expiry) on the paths modelled here;
  * fallible Rust functions returning Result become Except.
-/

/-! ## Generic association-list containers -/

/-- Lookup in an association list, mirroring HashMap::get / BTreeMap::get. -/
def alookup {κ α : Type} [DecidableEq κ] : List (κ × α) → κ → Option α
  | [], _ => none
  | (k', v) :: r, k => if k' = k then some v else alookup r k

/-- Insert-or-replace for an unordered map (DashMap / HashMap insert). -/
def aupsert {κ α : Type} [DecidableEq κ] : List (κ × α) → κ → α → List (κ × α)
  | [], k, v => [(k, v)]
  | (k', v') :: r, k, v => if k' = k then (k, v) :: r else (k', v') :: aupsert r k v

/-- Remove a key (HashMap::remove / BTreeMap::remove); keys are unique by
construction in all maps modelled here. -/
def aerase {κ α : Type} [DecidableEq κ] : List (κ × α) → κ → List (κ × α)
  | [], _ => []
  | (k', v) :: r, k => if k' = k then r else (k', v) :: aerase r k

/-- Apply a function to the value at a key, if present
(the `if let Some(mut x) = map.get_mut(k)` pattern). -/
def aadjust {κ α : Type} [DecidableEq κ] : List (κ × α) → κ → (α → α) → List (κ × α)
  | [], _, _ => []
  | (k', v) :: r, k, f => if k' = k then (k', f v) :: r else (k', v) :: aadjust r k f

/-- Sorted insert-or-replace with Nat keys: the model of BTreeMap::insert. -/
def sortedInsert {α : Type} : List (Nat × α) → Nat → α → List (Nat × α)
  | [], k, v => [(k, v)]
  | (k', v') :: r, k, v =>
    if k < k' then (k, v) :: (k', v') :: r
    else if k = k' then (k, v) :: r
    else (k', v') :: sortedInsert r k v

/-- Head key of a sorted association list: BTreeMap's smallest key. -/
def minKeyD {α : Type} (l : List (Nat × α)) (d : Nat) : Nat :=
  match l with
  | [] => d
  | (k, _) :: _ => k

/-! ## Decoder (src/rust_core/src/decode/decode.rs) -/

namespace Decode

/-- Raw captured frame: SafePacket from the crate root. -/
structure SafePacket where
  data : List Nat
  timestamp : Nat
deriving DecidableEq

/-- IP-header error variants as constructed by decode.rs
(decode.rs builds InvalidVersion / InvalidIHL / InvalidSourceIp /
InvalidDestinationIp / InvalidTotalLength; the address arguments are the
32-bit values of the rejected IPv4 addresses). -/
inductive IpHeaderError where
  | InvalidVersion (version : Nat)
  | InvalidIHL (ihl : Nat)
  | InvalidTotalLength (length : Nat)
  | InvalidSourceIp (ip : Nat)
  | InvalidDestinationIp (ip : Nat)
deriving DecidableEq

/-- TCP-header error variants as constructed by decode.rs. -/
inductive TcpHeaderError where
  | InvalidHeaderLength (length : Nat)
  | InvalidPort (port : Nat)
  | InvalidFlags (flags : Nat)
deriving DecidableEq

/-- UDP-header error variants as constructed by decode.rs. -/
inductive UdpHeaderError where
  | InvalidLength (length : Nat)
  | InvalidPort (port : Nat)
deriving DecidableEq

/-- Decode errors as constructed by decode.rs.  The source's
DecodeError::with_context folds an inner error into Other(format!(...)),
a string holding the context and the rendering of the inner error; the
WithContext constructor keeps that (context, inner-error) pair structurally
(the rendering of the variants decode.rs builds is not defined anywhere in
the source, so no string form exists to mirror). -/
inductive DecodeError where
  | EmptyPacket
  | InsufficientLength (required actual : Nat)
  | IpHeaderError (e : IpHeaderError)
  | TcpHeaderError (e : TcpHeaderError)
  | UdpHeaderError (e : UdpHeaderError)
  | WithContext (context : String) (e : DecodeError)
deriving DecidableEq

/-- DecodeError::with_context. -/
def with_context (e : DecodeError) (context : String) : DecodeError :=
  .WithContext context e

/-- IP header record of decode.rs (src_ip / dst_ip are the 32-bit values of
the parsed IpAddr::V4 addresses). -/
structure IpHeader where
  version : Nat
  ihl : Nat
  total_length : Nat
  identification : Nat
  flags : Nat
  fragment_offset : Nat
  ttl : Nat
  protocol : Nat
  checksum : Nat
  src_ip : Nat
  dst_ip : Nat
deriving DecidableEq

/-- Transport-layer variant of decode.rs. -/
inductive TransportProtocol where
  | Tcp (seq ack flags window : Nat)
  | Udp
  | Other (protocol : Nat)
deriving DecidableEq

/-- Decoded packet record of decode.rs. -/
structure DecodedPacket where
  timestamp : Nat
  ip_header : IpHeader
  src_port : Nat
  dst_port : Nat
  payload : List Nat
  protocol : TransportProtocol
deriving DecidableEq

/-- Byte access data[i]; all uses in the source are behind length guards. -/
def byteAt (data : List Nat) (i : Nat) : Nat := data.getD i 0

/-- u16::from_be_bytes([data[i], data[i+1]]). -/
def u16be (data : List Nat) (i : Nat) : Nat :=
  byteAt data i * 256 + byteAt data (i + 1)

/-- u32::from_be_bytes over data[i..i+4]. -/
def u32be (data : List Nat) (i : Nat) : Nat :=
  ((byteAt data i * 256 + byteAt data (i + 1)) * 256 + byteAt data (i + 2)) * 256
    + byteAt data (i + 3)

/-- decode_ip_header of decode.rs.  The total-length upper bound compares against
data.len() cast to u16, hence the explicit reduction mod 65536;
is_unspecified() for an IPv4 address holds exactly when all four bytes are
zero, i.e. when the 32-bit value is zero. -/
def decode_ip_header (data : List Nat) : Except DecodeError IpHeader :=
  if data.length < 20 then .error (.InsufficientLength 20 data.length)
  else
    let version := byteAt data 0 / 16 % 16
    if version ≠ 4 then .error (.IpHeaderError (.InvalidVersion version))
    else
      let ihl := byteAt data 0 % 16
      if ihl < 5 then .error (.IpHeaderError (.InvalidIHL ihl))
      else
        let total_length := u16be data 2
        if total_length < 20 ∨ total_length > data.length % 65536 then
          .error (.IpHeaderError (.InvalidTotalLength total_length))
        else
          let src_ip := u32be data 12
          let dst_ip := u32be data 16
          if src_ip = 0 then .error (.IpHeaderError (.InvalidSourceIp src_ip))
          else if dst_ip = 0 then .error (.IpHeaderError (.InvalidDestinationIp dst_ip))
          else .ok
            { version := version
              ihl := ihl
              total_length := total_length
              identification := u16be data 4
              flags := byteAt data 6 / 32 % 8
              fragment_offset := byteAt data 6 % 32 * 256 + byteAt data 7
              ttl := byteAt data 8
              protocol := byteAt data 9
              checksum := u16be data 10
              src_ip := src_ip
              dst_ip := dst_ip }

/-- decode_tcp_packet of decode.rs. -/
def decode_tcp_packet (packet : SafePacket) (ip_header : IpHeader) :
    Except DecodeError DecodedPacket :=
  if packet.data.length < 54 then .error (.InsufficientLength 54 packet.data.length)
  else
    let d := packet.data
    let tcp_offset := 14 + ip_header.ihl * 4
    let tcp_header_len := byteAt d (tcp_offset + 12) / 16 % 16 * 4
    if tcp_header_len < 20 then
      .error (.TcpHeaderError (.InvalidHeaderLength tcp_header_len))
    else
      let payload_offset := tcp_offset + tcp_header_len
      if payload_offset > d.length then
        .error (.InsufficientLength payload_offset d.length)
      else
        let src_port := u16be d tcp_offset
        let dst_port := u16be d (tcp_offset + 2)
        if src_port = 0 ∨ dst_port = 0 then
          .error (.TcpHeaderError (.InvalidPort (if src_port = 0 then src_port else dst_port)))
        else
          let flags := byteAt d (tcp_offset + 13)
          if flags % 64 = 0 then .error (.TcpHeaderError (.InvalidFlags flags))
          else .ok
            { timestamp := packet.timestamp
              ip_header := ip_header
              src_port := src_port
              dst_port := dst_port
              payload := d.drop payload_offset
              protocol := .Tcp (u32be d (tcp_offset + 4)) (u32be d (tcp_offset + 8))
                flags (u16be d (tcp_offset + 14)) }

/-- decode_udp_packet of decode.rs.  The length bound is computed with u16
subtraction (data.len() as u16 - udp_offset as u16), modelled by the explicit
wrap mod 65536. -/
def decode_udp_packet (packet : SafePacket) (ip_header : IpHeader) :
    Except DecodeError DecodedPacket :=
  if packet.data.length < 42 then .error (.InsufficientLength 42 packet.data.length)
  else
    let d := packet.data
    let udp_offset := 14 + ip_header.ihl * 4
    let payload_offset := udp_offset + 8
    let udp_length := u16be d (udp_offset + 4)
    if udp_length < 8 ∨
        udp_length > (d.length % 65536 + 65536 - udp_offset % 65536) % 65536 then
      .error (.UdpHeaderError (.InvalidLength udp_length))
    else
      let src_port := u16be d udp_offset
      let dst_port := u16be d (udp_offset + 2)
      if src_port = 0 ∨ dst_port = 0 then
        .error (.UdpHeaderError (.InvalidPort (if src_port = 0 then src_port else dst_port)))
      else .ok
        { timestamp := packet.timestamp
          ip_header := ip_header
          src_port := src_port
          dst_port := dst_port
          payload := d.drop payload_offset
          protocol := .Udp }

/-- Context string attached when decode_ip_header fails inside decode_packet. -/
def ctxIp : String := "解码IP头部失败"

/-- Context string attached when decode_tcp_packet fails inside decode_packet. -/
def ctxTcp : String := "解码TCP包失败"

/-- Context string attached when decode_udp_packet fails inside decode_packet. -/
def ctxUdp : String := "解码UDP包失败"

/-- decode_packet of decode.rs: empty check, 34-byte minimum, IP header at
offset 14, then dispatch on the IP protocol number.  Note that no byte of the
Ethernet header — in particular the EtherType field at bytes 12..13 — is ever
inspected. -/
def decode_packet (packet : SafePacket) : Except DecodeError DecodedPacket :=
  if packet.data = [] then .error .EmptyPacket
  else if packet.data.length < 34 then .error (.InsufficientLength 34 packet.data.length)
  else
    match decode_ip_header (packet.data.drop 14) with
    | .error e => .error (with_context e ctxIp)
    | .ok ip_header =>
      if ip_header.protocol = 6 then
        match decode_tcp_packet packet ip_header with
        | .error e => .error (with_context e ctxTcp)
        | .ok p => .ok p
      else if ip_header.protocol = 17 then
        match decode_udp_packet packet ip_header with
        | .error e => .error (with_context e ctxUdp)
        | .ok p => .ok p
      else .ok
        { timestamp := packet.timestamp
          ip_header := ip_header
          src_port := 0
          dst_port := 0
          payload := []
          protocol := .Other ip_header.protocol }

end Decode

/-! ## Helper lemmas about byte access -/

/-- Reading inside a dropped prefix shifts the index. -/
theorem byteAt_drop (d : List Nat) (n i : Nat) :
    Decode.byteAt (d.drop n) i = Decode.byteAt d (n + i) := by
  simp [Decode.byteAt, List.getD_eq_getElem?_getD, List.getElem?_drop]

/-- Overwriting bytes 12 and 13 does not change reads at indices ≥ 14. -/
theorem modEth_byteAt (d : List Nat) (b1 b2 i : Nat) (hi : 14 ≤ i) :
    Decode.byteAt ((d.set 12 b1).set 13 b2) i = Decode.byteAt d i := by
  simp only [Decode.byteAt, List.getD_eq_getElem?_getD]
  rw [List.getElem?_set_ne (by omega), List.getElem?_set_ne (by omega)]

/-- Overwriting bytes 12 and 13 does not change the length. -/
theorem modEth_len (d : List Nat) (b1 b2 : Nat) :
    ((d.set 12 b1).set 13 b2).length = d.length := by simp

/-- Overwriting bytes 12 and 13 does not change any suffix from index ≥ 14. -/
theorem modEth_drop (d : List Nat) (b1 b2 n : Nat) (hn : 14 ≤ n) :
    ((d.set 12 b1).set 13 b2).drop n = d.drop n := by
  apply List.ext_getElem?
  intro i
  rw [List.getElem?_drop, List.getElem?_drop,
    List.getElem?_set_ne (by omega), List.getElem?_set_ne (by omega)]

/-- Overwriting bytes 12 and 13 does not change emptiness. -/
theorem modEth_nil (d : List Nat) (b1 b2 : Nat) :
    (((d.set 12 b1).set 13 b2) = []) = (d = []) := by
  simp only [eq_iff_iff]
  rw [← List.length_eq_zero, ← List.length_eq_zero (l := d), modEth_len]

/-- Index-shape fact used to discharge side conditions. -/
theorem le14_1 (x : Nat) : 14 ≤ 14 + x := by omega

/-- Index-shape fact used to discharge side conditions. -/
theorem le14_2 (x y : Nat) : 14 ≤ 14 + x + y := by omega

/-- Index-shape fact used to discharge side conditions. -/
theorem le14_3 (x y z : Nat) : 14 ≤ 14 + x + y + z := by omega

/-- decode_tcp_packet reads nothing below byte 14. -/
theorem modEth_decode_tcp (d : List Nat) (b1 b2 ts : Nat) (ih : Decode.IpHeader) :
    Decode.decode_tcp_packet ⟨(d.set 12 b1).set 13 b2, ts⟩ ih =
      Decode.decode_tcp_packet ⟨d, ts⟩ ih := by
  simp only [Decode.decode_tcp_packet, Decode.u16be, Decode.u32be, modEth_len,
    modEth_byteAt, modEth_drop, le14_1, le14_2, le14_3]

/-- decode_udp_packet reads nothing below byte 14. -/
theorem modEth_decode_udp (d : List Nat) (b1 b2 ts : Nat) (ih : Decode.IpHeader) :
    Decode.decode_udp_packet ⟨(d.set 12 b1).set 13 b2, ts⟩ ih =
      Decode.decode_udp_packet ⟨d, ts⟩ ih := by
  simp only [Decode.decode_udp_packet, Decode.u16be, Decode.u32be, modEth_len,
    modEth_byteAt, modEth_drop, le14_1, le14_2, le14_3]

/-! ## Claim C7 -/

/-- Concrete 54-byte frame whose EtherType bytes 12..13 are 0x0000 (not
0x0800) but which decodes successfully: a valid IPv4+TCP frame otherwise. -/
def c7frame : Decode.SafePacket :=
  ⟨[0, 0, 0, 0, 0, 0, 0, 0, 0, 0, 0, 0,
    0, 0,
    69, 0, 0, 40, 0, 0, 64, 0, 64, 6, 0, 0, 127, 0, 0, 1, 127, 0, 0, 1,
    0, 80, 0, 80, 0, 0, 0, 0, 0, 0, 0, 0, 80, 2, 32, 0, 0, 0, 0, 0], 0⟩

/-- The packet c7frame decodes to. -/
def c7decoded : Decode.DecodedPacket :=
  { timestamp := 0
    ip_header :=
      { version := 4, ihl := 5, total_length := 40, identification := 0, flags := 2
        fragment_offset := 0, ttl := 64, protocol := 6, checksum := 0
        src_ip := 2130706433, dst_ip := 2130706433 }
    src_port := 80, dst_port := 80, payload := [], protocol := .Tcp 0 0 2 8192 }

/-- C7, counterexample: decode_packet accepts a frame whose EtherType field is
0x0000, so acceptance is not conditioned on EtherType = 0x0800. -/
theorem C7_counterexample :
    Decode.u16be c7frame.data 12 ≠ 2048 ∧
      Decode.decode_packet c7frame = .ok c7decoded :=
  ⟨by decide, by rfl⟩

/-- C7, amended: decode_packet never inspects the Ethernet EtherType field —
its result is invariant under arbitrary rewriting of bytes 12..13 — and a
frame of at least 34 bytes whose IP version nibble (high nibble of byte 14)
is 6, as any IPv6-after-0x86DD frame has, is rejected with the
invalid-IP-version error carrying version 6 (wrapped in the IP-header decode
context). -/
theorem C7_ethertype_amended (p : Decode.SafePacket) (b1 b2 : Nat) :
    Decode.decode_packet ⟨(p.data.set 12 b1).set 13 b2, p.timestamp⟩ =
        Decode.decode_packet p ∧
      (34 ≤ p.data.length → Decode.byteAt p.data 14 / 16 % 16 = 6 →
        Decode.decode_packet p =
          .error (.WithContext Decode.ctxIp (.IpHeaderError (.InvalidVersion 6)))) := by
  constructor
  · simp only [Decode.decode_packet, modEth_nil, modEth_len,
      modEth_drop p.data b1 b2 14 (by omega), modEth_decode_tcp, modEth_decode_udp]
  · intro hge h6
    have hne : p.data ≠ [] := by
      intro h
      rw [h] at hge
      simp at hge
    have h34 : ¬ p.data.length < 34 := Nat.not_lt.mpr hge
    have h20 : ¬ (p.data.drop 14).length < 20 := by
      rw [List.length_drop]
      omega
    have hb : Decode.byteAt (p.data.drop 14) 0 = Decode.byteAt p.data 14 := by
      rw [byteAt_drop]
    simp only [Decode.decode_packet, Decode.decode_ip_header, hne, h34, h20, hb, h6,
      if_neg, if_false, ite_false, Decode.with_context]
    simp

/-- Frame used to instantiate the amended C7 theorem: 34 bytes, byte 14 has
high nibble 6 (an IPv6 version field). -/
def c7v6frame : Decode.SafePacket :=
  ⟨[0, 0, 0, 0, 0, 0, 0, 0, 0, 0, 0, 0, 134, 221,
    96, 0, 0, 0, 0, 0, 0, 0, 0, 0, 0, 0, 0, 0, 0, 0, 0, 0, 0, 0], 0⟩

/-- Witness for the amended C7 theorem at a concrete IPv6-looking frame. -/
theorem C7_amended_witness :
    Decode.decode_packet c7v6frame =
        .error (.WithContext Decode.ctxIp (.IpHeaderError (.InvalidVersion 6))) ∧
      Decode.decode_packet ⟨(c7v6frame.data.set 12 8).set 13 0, c7v6frame.timestamp⟩ =
        Decode.decode_packet c7v6frame :=
  ⟨(C7_ethertype_amended c7v6frame 8 0).2 (by decide) (by decide),
    (C7_ethertype_amended c7v6frame 8 0).1⟩

/-! ## Claim C10 -/

/-- C10: decode_ip_header rejects the unspecified source address 0.0.0.0 with
InvalidSourceIp, and the unspecified destination address 0.0.0.0 with
InvalidDestinationIp, even when length, version, IHL and total length are all
valid. -/
theorem C10_unspecified_ip_rejected (data : List Nat)
    (hlen : 20 ≤ data.length)
    (hver : Decode.byteAt data 0 / 16 % 16 = 4)
    (hihl : 5 ≤ Decode.byteAt data 0 % 16)
    (htl1 : 20 ≤ Decode.u16be data 2)
    (htl2 : Decode.u16be data 2 ≤ data.length % 65536) :
    (Decode.u32be data 12 = 0 →
      Decode.decode_ip_header data = .error (.IpHeaderError (.InvalidSourceIp 0))) ∧
      (Decode.u32be data 12 ≠ 0 → Decode.u32be data 16 = 0 →
        Decode.decode_ip_header data =
          .error (.IpHeaderError (.InvalidDestinationIp 0))) := by
  constructor
  · intro hsrc
    simp [Decode.decode_ip_header, hver, hsrc, Nat.not_lt.mpr hlen,
      Nat.not_lt.mpr hihl, Nat.not_lt.mpr htl1, Nat.not_lt.mpr htl2]
  · intro hsrc hdst
    simp [Decode.decode_ip_header, hver, hsrc, hdst, Nat.not_lt.mpr hlen,
      Nat.not_lt.mpr hihl, Nat.not_lt.mpr htl1, Nat.not_lt.mpr htl2]

/-- Valid 20-byte IPv4 header with source address 0.0.0.0. -/
def c10srcZero : List Nat :=
  [69, 0, 0, 20, 0, 0, 0, 0, 64, 6, 0, 0, 0, 0, 0, 0, 1, 2, 3, 4]

/-- Valid 20-byte IPv4 header with destination address 0.0.0.0. -/
def c10dstZero : List Nat :=
  [69, 0, 0, 20, 0, 0, 0, 0, 64, 6, 0, 0, 1, 2, 3, 4, 0, 0, 0, 0]

/-- Witness for C10 at concrete headers. -/
theorem C10_witness :
    Decode.decode_ip_header c10srcZero =
        .error (.IpHeaderError (.InvalidSourceIp 0)) ∧
      Decode.decode_ip_header c10dstZero =
        .error (.IpHeaderError (.InvalidDestinationIp 0)) :=
  ⟨(C10_unspecified_ip_rejected c10srcZero (by decide) (by decide) (by decide)
      (by decide) (by decide)).1 (by decide),
    (C10_unspecified_ip_rejected c10dstZero (by decide) (by decide) (by decide)
      (by decide) (by decide)).2 (by decide) (by decide)⟩

/-! ## Shared packet shape consumed by the stream and defrag modules

The stream_tcp.rs and defrag.rs modules are written against a revision of
DecodedPacket different from the one in decode.rs: its ip_header carries
more_fragments / header_checksum / source_ip / dest_ip fields and its
transport variants embed ports and payload.  The structures below are that
shape, reconstructed from every field access those two modules make. -/

namespace Core

/-- IP header record as accessed by stream_tcp.rs and defrag.rs. -/
structure IpHdr where
  version : Nat
  ihl : Nat
  tos : Nat
  total_length : Nat
  identification : Nat
  flags : Nat
  fragment_offset : Nat
  more_fragments : Bool
  ttl : Nat
  protocol : Nat
  header_checksum : Nat
  source_ip : Nat
  dest_ip : Nat
deriving DecidableEq

/-- Transport variant as accessed by stream_tcp.rs and defrag.rs. -/
inductive Transport where
  | TCP (seq ack flags window src_port dst_port : Nat) (payload : List Nat)
  | UDP (src_port dst_port : Nat) (payload : List Nat)
deriving DecidableEq

/-- Decoded packet as accessed by stream_tcp.rs and defrag.rs. -/
structure Pkt where
  ip_header : IpHdr
  protocol : Transport
  timestamp : Nat
  payload : List Nat
deriving DecidableEq

end Core

/-! ## TCP reassembler (src/rust_core/src/stream/stream_tcp.rs) -/

namespace StreamTcp

/-- 2^32: the u32 wrap modulus for sequence arithmetic. -/
def M : Nat := 4294967296

/-- TCP_FIN flag bit. -/
def TCP_FIN : Nat := 1

/-- TCP_SYN flag bit. -/
def TCP_SYN : Nat := 2

/-- TCP_RST flag bit. -/
def TCP_RST : Nat := 4

/-- TCP_PSH flag bit. -/
def TCP_PSH : Nat := 8

/-- TCP_ACK flag bit. -/
def TCP_ACK : Nat := 16

/-- ReassemblyPolicy of stream_tcp.rs; the default is Windows. -/
inductive ReassemblyPolicy where
  | First
  | Last
  | Windows
  | Linux
  | Solaris
  | LinuxOld
deriving DecidableEq

/-- TcpState of stream_tcp.rs. -/
inductive TcpState where
  | SynSent
  | SynReceived
  | Established
  | FinWait1
  | FinWait2
  | CloseWait
  | Closing
  | LastAck
  | TimeWait
  | Closed
deriving DecidableEq

/-- SackBlock of stream_tcp.rs. -/
structure SackBlock where
  start_seq : Nat
  end_seq : Nat
deriving DecidableEq

/-- StreamStats of stream.rs; last_seen is the Nat model of its Instant. -/
structure StreamStats where
  packet_count : Nat
  byte_count : Nat
  last_seen : Nat
  gaps_detected : Nat
  retransmissions : Nat
  out_of_order : Nat
  reassambled_errors : Nat
deriving DecidableEq

/-- StreamStats::default (last_seen := Instant::now() becomes 0 here; it is
pure bookkeeping on the modelled paths). -/
def StreamStats.default : StreamStats := ⟨0, 0, 0, 0, 0, 0, 0⟩

/-- TcpSegment of stream_tcp.rs.  The received / timestamp / last_retransmit
Instant fields are dropped: on the paths reachable from process_packet they
are written but never read. -/
structure TcpSegment where
  seq : Nat
  data : List Nat
  flags : Nat
  retransmit_count : Nat
  end_seq : Nat
deriving DecidableEq

/-- Segment construction: TcpSegment::new and get_segment_from_pool set the
same field values (flags 0, retransmit_count 0,
end_seq = seq.wrapping_add(data.len() as u32)). -/
def mkSegment (seq : Nat) (data : List Nat) : TcpSegment :=
  ⟨seq, data, 0, 0, (seq + data.length % M) % M⟩

/-- TcpStream of stream_tcp.rs; seqInit models its `seq` field. -/
structure TcpStream where
  seqInit : Nat
  segments : List (Nat × TcpSegment)
  last_ack : Nat
  last_seen : Nat
  state : TcpState
  isn : Nat
  fin_seq : Option Nat
  sack_blocks : List SackBlock
  stats : StreamStats
  window_size : Nat
  mss : Nat
  total_bytes : Nat
  next_seq : Nat
  reassembled_data : List Nat
  base_seq : Nat
  end_seq : Nat
  established : Bool
deriving DecidableEq

/-- TcpStream::new. -/
def TcpStream.new : TcpStream :=
  { seqInit := 0
    segments := []
    last_ack := 0
    last_seen := 0
    state := .Closed
    isn := 0
    fin_seq := none
    sack_blocks := List.replicate 4 ⟨0, 0⟩
    stats := StreamStats.default
    window_size := 65535
    mss := 1460
    total_bytes := 0
    next_seq := 0
    reassembled_data := []
    base_seq := 0
    end_seq := 0
    established := false }

/-- TcpReassembler of stream_tcp.rs.  The segment pool is dropped: pooled and
fresh segments carry identical field values (see mkSegment), so the pool is
behaviourally invisible.  timeout_ms feeds only cleanup_expired, which
process_packet never calls. -/
structure TcpReassembler where
  streams : List (String × TcpStream)
  timeout_ms : Nat
  max_gap : Nat
  max_streams : Nat
  max_segments : Nat
  stream_stats : List (String × StreamStats)
  max_payload_size : Nat
  policy : ReassemblyPolicy
deriving DecidableEq

/-- TcpReassembler::new. -/
def TcpReassembler.new (max_segments max_payload_size timeout_ms
    cleanup_interval_ms : Nat) : TcpReassembler :=
  { streams := []
    timeout_ms := timeout_ms
    max_gap := 16384
    max_streams := 1024
    max_segments := max_segments
    stream_stats := []
    max_payload_size := max_payload_size
    policy := .Windows }

/-- Flow key string of process_packet:
format!("{}:{}-{}:{}", source_ip, src_port, dest_ip, dst_port). -/
def flowKey (source_ip src_port dest_ip dst_port : Nat) : String :=
  toString source_ip ++ ":" ++ toString src_port ++ "-"
    ++ toString dest_ip ++ ":" ++ toString dst_port

/-- seq_compare of stream_tcp.rs: the wrapping u32 difference reinterpreted
as i32, clamped to ±1 outside ±0x7FFFFFFF. -/
def seq_compare (seq1 seq2 : Nat) : Int :=
  if seq1 = seq2 then 0
  else
    let d := (seq1 % M + (M - seq2 % M)) % M
    let diff : Int := if d < 2147483648 then (d : Int) else (d : Int) - (M : Int)
    if diff.natAbs < 2147483647 then diff
    else if diff > 0 then -1 else 1

/-- Overlap test used both by process_packet (line 681) and by
handle_overlapping_segment (line 319): seq < existing.end_seq ∧
new_end > existing_seq, in plain u32 comparison. -/
def overlapsNew (seq new_end : Nat) (p : Nat × TcpSegment) : Bool :=
  decide (seq < p.2.end_seq) && decide (new_end > p.1)

/-- Policy decision of handle_overlapping_segment for one overlapping
segment. -/
def useOriginal (policy : ReassemblyPolicy) (existing_seq existing_end seq
    new_end : Nat) : Bool :=
  let original_starts_before := decide (seq_compare existing_seq seq < 0)
  let original_ends_after := decide (seq_compare existing_end new_end > 0)
  let original_ends_same := decide (existing_end = new_end)
  let original_starts_same := decide (existing_seq = seq)
  match policy with
  | .First => true
  | .Last => false
  | .Windows => !original_starts_before
  | .Linux => !(original_starts_before || (original_starts_same && original_ends_after))
  | .Solaris => original_ends_after
      || (original_starts_before && (original_ends_same || original_ends_after))
  | .LinuxOld => original_starts_before
      || (original_starts_same && original_ends_after)

/-- Iteration of handle_overlapping_segment over the pre-collected
overlapping segments: the first segment the policy keeps ends the loop with
true (discard the new segment); otherwise the overlapping original is removed
and iteration continues; an exhausted loop yields false. -/
def resolveOverlaps (policy : ReassemblyPolicy) (seq new_end : Nat) :
    List (Nat × TcpSegment) → List (Nat × TcpSegment) →
      Bool × List (Nat × TcpSegment)
  | [], segs => (false, segs)
  | (existing_seq, seg) :: rest, segs =>
    if useOriginal policy existing_seq seg.end_seq seq new_end then (true, segs)
    else resolveOverlaps policy seq new_end rest (aerase segs existing_seq)

/-- handle_overlapping_segment of stream_tcp.rs: collect the overlapping
segments (in map order), then resolve them by policy; returns
(discard_new_segment, updated segments). -/
def handle_overlapping_segment (policy : ReassemblyPolicy)
    (segments : List (Nat × TcpSegment)) (seq : Nat) (payload : List Nat) :
    Bool × List (Nat × TcpSegment) :=
  let new_end := (seq + payload.length % M) % M
  let overlapping := segments.filter (overlapsNew seq new_end)
  resolveOverlaps policy seq new_end overlapping segments

/-- Forward walk of handle_in_order_segment: starting at current_seq, gather
contiguous segments, advancing by each segment's length (or 1 for an empty
segment).  The walk visits at most segments.length distinct keys; the fuel
models that bound (a wrap-around cycle over the whole 2^32 space, where the
Rust loop would not terminate, is unreachable for the inputs considered
here). -/
def consumeFrom (segments : List (Nat × TcpSegment)) :
    Nat → Nat → List Nat × List Nat × Nat
  | _, 0 => ([], [], 0)
  | cur, Nat.succ fuel =>
    match alookup segments cur with
    | none => ([], [], cur)
    | some seg =>
      let nxt := if seg.data.length = 0 then (cur + 1) % M
        else (cur + seg.data.length % M) % M
      let r := consumeFrom segments nxt fuel
      (seg.data ++ r.1, cur :: r.2.1, r.2.2)

/-- Fuel bookkeeping: consumeFrom is always started with fuel
segments.length + 1 so that a run consuming every segment still performs the
final failing lookup exactly as the Rust loop does. -/
def consumeStart (segments : List (Nat × TcpSegment)) (cur : Nat) :
    List Nat × List Nat × Nat :=
  consumeFrom segments cur (segments.length + 1)

/-- handle_in_order_segment of stream_tcp.rs.  Returns the emitted bytes (if
any), the updated stream, and the updated global stats map. -/
def handle_in_order_segment (stream : TcpStream) (key : String)
    (gstats : List (String × StreamStats)) (now : Nat) :
    Option (List Nat) × TcpStream × List (String × StreamStats) :=
  if (alookup stream.segments stream.base_seq).isNone then (none, stream, gstats)
  else
    let w := consumeStart stream.segments stream.base_seq
    let result := w.1
    let processed := w.2.1
    let segs := processed.foldl (fun s q => aerase s q) stream.segments
    let next' := w.2.2
    let base' := minKeyD segs next'
    let stream' :=
      { stream with
        segments := segs
        next_seq := next'
        base_seq := base'
        reassembled_data := stream.reassembled_data ++ result
        stats :=
          { stream.stats with
            packet_count := stream.stats.packet_count + 1
            byte_count := stream.stats.byte_count + result.length } }
    let gstats' := aadjust gstats key (fun st =>
      { st with
        packet_count := st.packet_count + 1
        byte_count := st.byte_count + result.length
        last_seen := now })
    (if result.length ≠ 0 then some result else none, stream', gstats')

/-- One step of update_stats for the events handle_tcp_flags can raise:
StreamEstablished and StreamClosed bump packet_count. -/
def bumpPacketCount (st : TcpStream) : TcpStream :=
  { st with stats := { st.stats with packet_count := st.stats.packet_count + 1 } }

/-- handle_error of stream_tcp.rs: bumps reassambled_errors (the logging is
dropped). -/
def handle_error (st : TcpStream) : TcpStream :=
  { st with stats :=
      { st.stats with reassambled_errors := st.stats.reassambled_errors + 1 } }

/-- handle_tcp_flags of stream_tcp.rs: the passive state machine, then ACK
bookkeeping (last_ack, window_size), then RST handling. -/
def handle_tcp_flags (st : TcpStream) (seq flags ack window : Nat) : TcpStream :=
  let st1 :=
    match st.state with
    | .Closed =>
      if flags &&& TCP_SYN ≠ 0 then { st with state := .SynReceived }
      else handle_error st
    | .SynSent =>
      if flags &&& TCP_SYN ≠ 0 ∧ flags &&& TCP_ACK ≠ 0 then
        bumpPacketCount { st with state := .Established }
      else handle_error st
    | .SynReceived =>
      if flags &&& TCP_ACK ≠ 0 then bumpPacketCount { st with state := .Established }
      else handle_error st
    | .Established =>
      if flags &&& TCP_FIN ≠ 0 then { st with state := .CloseWait, fin_seq := some seq }
      else if flags &&& TCP_ACK ≠ 0 then { st with state := .FinWait1 }
      else st
    | .FinWait1 => if flags &&& TCP_ACK ≠ 0 then { st with state := .FinWait2 } else st
    | .FinWait2 => if flags &&& TCP_FIN ≠ 0 then { st with state := .Closing } else st
    | .CloseWait => if flags &&& TCP_FIN ≠ 0 then { st with state := .LastAck } else st
    | .Closing => if flags &&& TCP_ACK ≠ 0 then { st with state := .TimeWait } else st
    | .LastAck =>
      if flags &&& TCP_ACK ≠ 0 then bumpPacketCount { st with state := .Closed }
      else st
    | .TimeWait => st
  let st2 := if flags &&& TCP_ACK ≠ 0 then
      { st1 with last_ack := ack, window_size := window }
    else st1
  if flags &&& TCP_RST ≠ 0 then bumpPacketCount { st2 with state := .Closed } else st2

/-- find_and_remove_oldest_stream of stream_tcp.rs: drop the stream whose
last_seen is the strictly smallest value below `now` (first such entry in
iteration order wins ties, as in the source's strict comparison). -/
def removeOldest (streams : List (String × TcpStream)) (now : Nat) :
    List (String × TcpStream) :=
  let oldest := streams.foldl
    (fun (acc : Nat × Option String) p =>
      if p.2.last_seen < acc.1 then (p.2.last_seen, some p.1) else acc)
    (now, none)
  match oldest.2 with
  | none => streams
  | some k => aerase streams k

/-- process_packet of stream_tcp.rs (lines 521..730), for one packet, with
`now` standing for every Instant::now() taken during the call.  Returns the
emitted reassembled bytes (if any) together with the updated reassembler. -/
def process_packet (R : TcpReassembler) (packet : Core.Pkt) (now : Nat) :
    Option (List Nat) × TcpReassembler :=
  match packet.protocol with
  | .UDP _ _ _ => (none, R)
  | .TCP seq _ack flags _window src_port dst_port payload =>
    let key := flowKey packet.ip_header.source_ip src_port
      packet.ip_header.dest_ip dst_port
    match alookup R.streams key with
    | none =>
      if payload.length = 0 ∧ flags &&& (TCP_SYN ||| TCP_FIN ||| TCP_RST) = 0 then
        (none, R)
      else
        let streams0 := if R.streams.length ≥ R.max_streams
          then removeOldest R.streams now else R.streams
        let st1 :=
          { TcpStream.new with
            isn := seq
            base_seq := seq
            seqInit := seq
            next_seq := if flags &&& TCP_SYN ≠ 0 then
                (if payload.length = 0 then (seq + 1) % M
                 else (seq + 1 + payload.length % M) % M)
              else (seq + payload.length % M) % M
            last_seen := now
            established := flags &&& TCP_SYN ≠ 0 }
        let gstats0 := aupsert R.stream_stats key
          { packet_count := 1
            byte_count := payload.length
            last_seen := now
            gaps_detected := 0
            retransmissions := 0
            out_of_order := 0
            reassambled_errors := 0 }
        let st2 := { st1 with segments := sortedInsert st1.segments seq (mkSegment seq payload) }
        let st3 := { st2 with base_seq := minKeyD st2.segments st2.base_seq }
        let r := handle_in_order_segment st3 key gstats0 now
        (r.1, { R with streams := aupsert streams0 key r.2.1, stream_stats := r.2.2 })
    | some stream0 =>
      let stA := { stream0 with last_seen := now }
      let stB := handle_tcp_flags stA seq flags _ack _window
      if seq < (stB.next_seq + (M - payload.length % M)) % M
          ∧ payload.length ≠ 0 then
        let stC := { stB with stats :=
          { stB.stats with retransmissions := stB.stats.retransmissions + 1 } }
        let gstats1 := aadjust R.stream_stats key (fun st =>
          { st with retransmissions := st.retransmissions + 1 })
        (none, { R with streams := aupsert R.streams key stC, stream_stats := gstats1 })
      else
        let stC := { stB with segments := sortedInsert stB.segments seq (mkSegment seq payload) }
        let stD := { stC with base_seq := minKeyD stC.segments stC.base_seq }
        if seq = stD.next_seq then
          let r := handle_in_order_segment stD key R.stream_stats now
          (r.1, { R with streams := aupsert R.streams key r.2.1, stream_stats := r.2.2 })
        else
          let new_end := (seq + payload.length % M) % M
          let is_overlapping := stD.segments.any (overlapsNew seq new_end)
          if is_overlapping then
            let ov := handle_overlapping_segment R.policy stD.segments seq payload
            if ov.1 = false then
              let stE := { stD with segments := sortedInsert ov.2 seq (mkSegment seq payload) }
              let stF := { stE with base_seq := minKeyD stE.segments stE.base_seq }
              let r := handle_in_order_segment stF key R.stream_stats now
              (r.1, { R with streams := aupsert R.streams key r.2.1, stream_stats := r.2.2 })
            else
              let stE := { stD with segments := ov.2 }
              (some payload, { R with streams := aupsert R.streams key stE })
          else
            (none, { R with streams := aupsert R.streams key stD })

/-- Feed a list of packets in order, collecting every return value. -/
def runTcp (R : TcpReassembler) (now : Nat) :
    List Core.Pkt → List (Option (List Nat)) × TcpReassembler
  | [] => ([], R)
  | p :: ps =>
    let r := process_packet R p now
    let rest := runTcp r.2 now ps
    (r.1 :: rest.1, rest.2)

/-- Concatenation of the Some return values, in order. -/
def joinSome : List (Option (List Nat)) → List Nat
  | [] => []
  | none :: r => joinSome r
  | some b :: r => b ++ joinSome r

end StreamTcp

/-! ## Packet constructors and flow descriptions for the TCP claims -/

namespace StreamTcp

/-- A data-bearing TCP packet of one flow, as the stream module consumes it
(IP fields other than addresses are fixed plausible values; the reassembler
reads only source_ip / dest_ip and the transport tuple).  Field order:
version, ihl, tos, total_length, identification, flags, fragment_offset,
more_fragments, ttl, protocol, header_checksum, source_ip, dest_ip. -/
def tcpPkt (source_ip src_port dest_ip dst_port seq ack flags window : Nat)
    (payload : List Nat) : Core.Pkt :=
  ⟨⟨4, 5, 0, (20 + payload.length) % 65536, 0, 0, 0, false, 64, 6, 0,
      source_ip, dest_ip⟩,
    .TCP seq ack flags window src_port dst_port payload, 0, payload⟩

/-- One TCP segment of a flow: the per-packet transport fields. -/
structure SegIn where
  seq : Nat
  ack : Nat
  flags : Nat
  window : Nat
  payload : List Nat
deriving DecidableEq

/-- Turn a segment description into a packet of the given flow. -/
def SegIn.toPkt (source_ip src_port dest_ip dst_port : Nat) (s : SegIn) :
    Core.Pkt :=
  tcpPkt source_ip src_port dest_ip dst_port s.seq s.ack s.flags s.window s.payload

/-- Strict-order chain: each packet is data-bearing and its sequence number
is the previous packet's sequence number plus its payload length (u32). -/
def seqChainB : Nat → List SegIn → Bool
  | _, [] => true
  | nxt, s :: r => decide (s.seq = nxt) && decide (s.payload.length ≠ 0)
      && seqChainB ((s.seq + s.payload.length) % M) r

/-- The claim C1 arrival-order hypothesis, exactly as stated: data-bearing
packets in strict sequence-number order. -/
def strictOrderB : List SegIn → Bool
  | [] => true
  | s :: r => decide (s.payload.length ≠ 0)
      && seqChainB ((s.seq + s.payload.length) % M) r

/-- Concatenation of the payloads in arrival order. -/
def joinPayloads (l : List SegIn) : List Nat :=
  (l.map (fun s => s.payload)).join

end StreamTcp

/-! ## Claim C1 -/

/-- The reassembler used for the concrete TCP scenarios. -/
def R0tcp : StreamTcp.TcpReassembler := StreamTcp.TcpReassembler.new 100 1024 1000 1000

/-- Flow seq 0 "Hello" then seq 5, ten bytes: strictly in order, yet the
second packet trips the u32-wrapping retransmission guard
(seq < next_seq.wrapping_sub(len) becomes 5 < 2^32 - 5). -/
def c1pkts : List StreamTcp.SegIn :=
  [⟨0, 0, 24, 65535, [72, 101, 108, 108, 111]⟩,
   ⟨5, 0, 24, 65535, [48, 49, 50, 51, 52, 53, 54, 55, 56, 57]⟩]

/-- C1, counterexample: a flow fed in strict sequence-number order whose
emitted concatenation is not the concatenation of its payloads — the second
packet is swallowed as a retransmission. -/
theorem C1_counterexample :
    StreamTcp.strictOrderB c1pkts = true ∧
      StreamTcp.joinSome
          (StreamTcp.runTcp R0tcp 0 (c1pkts.map (StreamTcp.SegIn.toPkt 1 3 2 4))).1 ≠
        StreamTcp.joinPayloads c1pkts :=
  ⟨by decide, by decide⟩

/-! ## Claim C2 (spec scenario S3) -/

/-- P1: seq 1000, payload "Hello", on flow 192.168.1.1:12345 → 192.168.1.2:80. -/
def c2p1 : Core.Pkt :=
  StreamTcp.tcpPkt 3232235777 12345 3232235778 80 1000 0 24 65535
    [72, 101, 108, 108, 111]

/-- P2: seq 1005, payload "World", on the same flow. -/
def c2p2 : Core.Pkt :=
  StreamTcp.tcpPkt 3232235777 12345 3232235778 80 1005 0 24 65535
    [87, 111, 114, 108, 100]

/-- The flow key of the C2/C3/C8 scenarios' flow. -/
def c2key : String := StreamTcp.flowKey 3232235777 12345 3232235778 80

/-- C2, code behaviour at the failing input: arrival order P1,P2 emits
"Hello" then "World" (aggregate "HelloWorld", stored reassembled_data
"HelloWorld"), but arrival order P2,P1 emits "World" and then swallows P1 as
a retransmission (aggregate "World", stored reassembled_data "World"), so the
final reassembled byte stream is not permutation-invariant. -/
theorem C2_order_dependent :
    StreamTcp.joinSome (StreamTcp.runTcp R0tcp 0 [c2p1, c2p2]).1 =
        [72, 101, 108, 108, 111, 87, 111, 114, 108, 100] ∧
      StreamTcp.joinSome (StreamTcp.runTcp R0tcp 0 [c2p2, c2p1]).1 =
        [87, 111, 114, 108, 100] ∧
      (alookup (StreamTcp.runTcp R0tcp 0 [c2p1, c2p2]).2.streams c2key).map
          (fun st => st.reassembled_data) =
        some [72, 101, 108, 108, 111, 87, 111, 114, 108, 100] ∧
      (alookup (StreamTcp.runTcp R0tcp 0 [c2p2, c2p1]).2.streams c2key).map
          (fun st => st.reassembled_data) =
        some [87, 111, 114, 108, 100] := by
  refine ⟨by decide, by decide, by decide, by decide⟩

/-! ## Claim C3 (spec scenario S4) -/

/-- The S4 packet: seq 1, payload "Data", flags 0x18. -/
def c3pkt : Core.Pkt :=
  StreamTcp.tcpPkt 3232235777 12345 3232235778 80 1 0 24 65535 [68, 97, 116, 97]

/-- C3, code behaviour at the failing input: feeding the exact duplicate
immediately after the original returns Some "Data" again (not None) — the
duplicate evades the seq < next_seq.wrapping_sub(len) guard because
1 < (5 - 4) is false, is re-inserted, and then bounces off the
overlap-with-itself path which returns the payload — and the retransmissions
counter stays 0 in both the per-stream and the global stats. -/
theorem C3_duplicate_not_suppressed :
    (StreamTcp.runTcp R0tcp 0 [c3pkt, c3pkt]).1 =
        [some [68, 97, 116, 97], some [68, 97, 116, 97]] ∧
      (alookup (StreamTcp.runTcp R0tcp 0 [c3pkt, c3pkt]).2.streams c2key).map
          (fun st => st.stats.retransmissions) = some 0 ∧
      (alookup (StreamTcp.runTcp R0tcp 0 [c3pkt, c3pkt]).2.stream_stats c2key).map
          (fun st => st.retransmissions) = some 0 := by
  refine ⟨by decide, by decide, by rfl⟩

/-! ## Claim C8 -/

/-- First packet of the gap scenario: seq 1000, payload "Hello". -/
def c8p1 : Core.Pkt := c2p1

/-- Gap packet: seq 20000, one byte — a gap of 18995 bytes beyond
next_seq = 1005, far larger than max_gap = 16384. -/
def c8p2 : Core.Pkt :=
  StreamTcp.tcpPkt 3232235777 12345 3232235778 80 20000 0 24 65535 [88]

/-- C8, code behaviour at the failing input: the reassembler's max_gap is
16384 and the second packet sits 18995 bytes past next_seq, yet
process_packet returns Some of its payload (its return type has no error
channel at all and max_gap is never consulted), the offending segment IS
buffered in the stream's segment map, and no gap is recorded
(gaps_detected stays 0). -/
theorem C8_gap_not_rejected :
    (StreamTcp.runTcp R0tcp 0 [c8p1, c8p2]).2.max_gap = 16384 ∧
      (StreamTcp.runTcp R0tcp 0 [c8p1, c8p2]).1 =
        [some [72, 101, 108, 108, 111], some [88]] ∧
      (alookup (StreamTcp.runTcp R0tcp 0 [c8p1, c8p2]).2.streams c2key).map
          (fun st => ((alookup st.segments 20000).isSome, st.next_seq,
            st.stats.gaps_detected)) =
        some (true, 1005, 0) ∧
      1005 + 16384 < 20000 := by
  refine ⟨by decide, by decide, by decide, by decide⟩

/-! ## In-order delivery: supporting lemmas -/

/-- Lookup after insert-or-replace finds the inserted value. -/
theorem alookup_aupsert {κ α : Type} [DecidableEq κ] (l : List (κ × α)) (k : κ)
    (v : α) : alookup (aupsert l k v) k = some v := by
  induction l with
  | nil => simp [aupsert, alookup]
  | cons p r ih =>
    obtain ⟨k', v'⟩ := p
    by_cases h : k' = k
    · simp [aupsert, alookup, h]
    · simp [aupsert, alookup, h, ih]

/-- joinSome over all-Some outputs is the payload concatenation. -/
theorem joinSome_map_some (l : List StreamTcp.SegIn) :
    StreamTcp.joinSome (l.map fun s => some s.payload) =
      StreamTcp.joinPayloads l := by
  induction l with
  | nil => rfl
  | cons s r ih => simp [StreamTcp.joinSome, StreamTcp.joinPayloads, List.join] at ih ⊢; rw [ih]

/-- handle_tcp_flags touches only the connection-state bookkeeping: the
segment map, next_seq, base_seq, reassembled_data and the retransmission
counter pass through unchanged. -/
theorem handle_tcp_flags_preserves (st : StreamTcp.TcpStream)
    (seq flags ack window : Nat) :
    (StreamTcp.handle_tcp_flags st seq flags ack window).segments = st.segments ∧
      (StreamTcp.handle_tcp_flags st seq flags ack window).next_seq = st.next_seq ∧
      (StreamTcp.handle_tcp_flags st seq flags ack window).base_seq = st.base_seq ∧
      (StreamTcp.handle_tcp_flags st seq flags ack window).reassembled_data =
        st.reassembled_data ∧
      (StreamTcp.handle_tcp_flags st seq flags ack window).stats.retransmissions =
        st.stats.retransmissions := by
  obtain ⟨f1, f2, f3, f4, f5, f6, f7, f8, f9, f10, f11, f12, f13, f14, f15, f16, f17⟩ := st
  unfold StreamTcp.handle_tcp_flags StreamTcp.bumpPacketCount StreamTcp.handle_error
  cases f5 <;> dsimp only <;> split_ifs <;> exact ⟨rfl, rfl, rfl, rfl, rfl⟩

/-- One in-order packet on an existing drained stream: emits exactly its
payload and leaves the stream drained with next_seq advanced by the payload
length. -/
theorem step_in_order (R : StreamTcp.TcpReassembler) (sip sp dip dp now : Nat)
    (st : StreamTcp.TcpStream) (s : StreamTcp.SegIn)
    (hlk : alookup R.streams (StreamTcp.flowKey sip sp dip dp) = some st)
    (hsegs : st.segments = [])
    (hnext : st.next_seq = s.seq)
    (hpay : s.payload.length ≠ 0)
    (hlenM : s.payload.length < StreamTcp.M)
    (hsafe : s.payload.length ≤ s.seq)
    (hseqM : s.seq < StreamTcp.M) :
    ∃ st1 gs1,
      StreamTcp.process_packet R (StreamTcp.SegIn.toPkt sip sp dip dp s) now =
        (some s.payload,
          { R with
            streams := aupsert R.streams (StreamTcp.flowKey sip sp dip dp) st1
            stream_stats := gs1 }) ∧
        st1.segments = [] ∧
        st1.next_seq = (s.seq + s.payload.length) % StreamTcp.M := by
  have hpres := handle_tcp_flags_preserves { st with last_seen := now }
    s.seq s.flags s.ack s.window
  have hsegB : (StreamTcp.handle_tcp_flags { st with last_seen := now }
      s.seq s.flags s.ack s.window).segments = [] := by
    rw [hpres.1]; exact hsegs
  have hnxB : (StreamTcp.handle_tcp_flags { st with last_seen := now }
      s.seq s.flags s.ack s.window).next_seq = s.seq := by
    rw [hpres.2.1]; exact hnext
  have hmod : s.payload.length % StreamTcp.M = s.payload.length :=
    Nat.mod_eq_of_lt hlenM
  have hsub : (s.seq + (StreamTcp.M - s.payload.length)) % StreamTcp.M =
      s.seq - s.payload.length := by
    have e1 : s.seq + (StreamTcp.M - s.payload.length) =
        s.seq - s.payload.length + StreamTcp.M := by omega
    rw [e1, Nat.add_mod_right]
    exact Nat.mod_eq_of_lt (by omega)
  have hno : ¬ (s.seq < s.seq - s.payload.length) := by omega
  have hnxt_ne : ¬ (s.seq = (s.seq + s.payload.length) % StreamTcp.M) := by
    rcases Nat.lt_or_ge (s.seq + s.payload.length) StreamTcp.M with h | h
    · rw [Nat.mod_eq_of_lt h]; omega
    · rw [Nat.mod_eq_sub_mod h, Nat.mod_eq_of_lt (by omega)]; omega
  simp only [StreamTcp.process_packet, StreamTcp.SegIn.toPkt, StreamTcp.tcpPkt, hlk,
    hsegB, hnxB, hmod, hsub, StreamTcp.handle_in_order_segment,
    StreamTcp.consumeStart, StreamTcp.consumeFrom, StreamTcp.mkSegment,
    sortedInsert, minKeyD, alookup, aerase, List.foldl, List.length]
  simp only [hno, false_and, if_false, ite_false]
  simp [hpay, hnxt_ne, hmod]
  exact ⟨_, rfl, rfl, rfl⟩

/-- The first data-bearing packet of a fresh reassembler creates the flow and
immediately emits its payload, leaving the stream drained with next_seq just
past the payload. -/
theorem first_in_order (a b c d sip sp dip dp now : Nat) (s : StreamTcp.SegIn)
    (hpay : s.payload.length ≠ 0)
    (hlenM : s.payload.length < StreamTcp.M)
    (hseqM : s.seq < StreamTcp.M) :
    ∃ st1 gs1,
      StreamTcp.process_packet (StreamTcp.TcpReassembler.new a b c d)
          (StreamTcp.SegIn.toPkt sip sp dip dp s) now =
        (some s.payload,
          { StreamTcp.TcpReassembler.new a b c d with
            streams := [(StreamTcp.flowKey sip sp dip dp, st1)]
            stream_stats := gs1 }) ∧
        st1.segments = [] ∧
        st1.next_seq = (s.seq + s.payload.length) % StreamTcp.M := by
  have hmod : s.payload.length % StreamTcp.M = s.payload.length :=
    Nat.mod_eq_of_lt hlenM
  have hnxt_ne : ¬ (s.seq = (s.seq + s.payload.length) % StreamTcp.M) := by
    rcases Nat.lt_or_ge (s.seq + s.payload.length) StreamTcp.M with h | h
    · rw [Nat.mod_eq_of_lt h]; omega
    · rw [Nat.mod_eq_sub_mod h, Nat.mod_eq_of_lt (by omega)]; omega
  simp only [StreamTcp.process_packet, StreamTcp.SegIn.toPkt, StreamTcp.tcpPkt,
    StreamTcp.TcpReassembler.new, StreamTcp.TcpStream.new,
    StreamTcp.handle_in_order_segment, StreamTcp.consumeStart,
    StreamTcp.consumeFrom, StreamTcp.mkSegment, sortedInsert, minKeyD, alookup,
    aerase, aupsert, List.foldl, List.length, hmod]
  simp [hpay, hnxt_ne, hmod]

/-- Chain lemma: a drained stream fed further strictly-in-order data-bearing
packets emits exactly the payload of each. -/
theorem run_in_order_chain (sip sp dip dp now : Nat) (rest : List StreamTcp.SegIn) :
    ∀ (R : StreamTcp.TcpReassembler) (st : StreamTcp.TcpStream),
      alookup R.streams (StreamTcp.flowKey sip sp dip dp) = some st →
      st.segments = [] →
      st.next_seq < StreamTcp.M →
      StreamTcp.seqChainB st.next_seq rest = true →
      (rest.all fun s => decide (s.payload.length ≤ s.seq)
        && decide (s.payload.length < StreamTcp.M)) = true →
      (StreamTcp.runTcp R now (rest.map (StreamTcp.SegIn.toPkt sip sp dip dp))).1 =
        rest.map fun s => some s.payload := by
  induction rest with
  | nil => intro R st _ _ _ _ _; rfl
  | cons s r ih =>
    intro R st hlk hsegs hcurM hchain hsafe
    rw [StreamTcp.seqChainB] at hchain
    simp only [Bool.and_eq_true, decide_eq_true_eq] at hchain
    obtain ⟨⟨hseq, hpay⟩, hrest⟩ := hchain
    simp only [List.all_cons, Bool.and_eq_true, decide_eq_true_eq] at hsafe
    obtain ⟨⟨hsafe1, hsafe2⟩, hsafer⟩ := hsafe
    have hseqM : s.seq < StreamTcp.M := hseq ▸ hcurM
    obtain ⟨st1, gs1, hrun, hseg1, hnx1⟩ :=
      step_in_order R sip sp dip dp now st s hlk hsegs hseq.symm hpay hsafe2
        hsafe1 hseqM
    simp only [List.map_cons, StreamTcp.runTcp, hrun]
    have hlk1 : alookup (aupsert R.streams (StreamTcp.flowKey sip sp dip dp) st1)
        (StreamTcp.flowKey sip sp dip dp) = some st1 := alookup_aupsert _ _ _
    have htail := ih
      { R with streams := aupsert R.streams (StreamTcp.flowKey sip sp dip dp) st1
               stream_stats := gs1 }
      st1 hlk1 hseg1
      (by rw [hnx1]; exact Nat.mod_lt _ (by norm_num [StreamTcp.M]))
      (by rw [hnx1]; exact hrest)
      (by simp only [List.all_eq_true] at hsafer ⊢; exact hsafer)
    simp only [htail]

/-- C1, amended: for a flow of data-bearing packets fed in strict
sequence-number order, the concatenation of all Some return values equals the
concatenation of the payloads — PROVIDED every non-initial packet's payload
length does not exceed its sequence number (otherwise the u32 computation
next_seq.wrapping_sub(len) wraps and the in-order packet is misclassified as
a retransmission, see the counterexample), with payload lengths and the
initial sequence number in u32 range. -/
theorem C1_in_order_delivery (a b c d sip sp dip dp now : Nat)
    (s0 : StreamTcp.SegIn) (rest : List StreamTcp.SegIn)
    (h0pay : s0.payload.length ≠ 0)
    (h0M : s0.payload.length < StreamTcp.M)
    (h0seq : s0.seq < StreamTcp.M)
    (hchain : StreamTcp.seqChainB ((s0.seq + s0.payload.length) % StreamTcp.M)
      rest = true)
    (hsafe : (rest.all fun s => decide (s.payload.length ≤ s.seq)
      && decide (s.payload.length < StreamTcp.M)) = true) :
    StreamTcp.joinSome
        (StreamTcp.runTcp (StreamTcp.TcpReassembler.new a b c d) now
          ((s0 :: rest).map (StreamTcp.SegIn.toPkt sip sp dip dp))).1 =
      StreamTcp.joinPayloads (s0 :: rest) := by
  obtain ⟨st1, gs1, hrun, hseg1, hnx1⟩ :=
    first_in_order a b c d sip sp dip dp now s0 h0pay h0M h0seq
  have hlk1 : alookup
      [(StreamTcp.flowKey sip sp dip dp, st1)] (StreamTcp.flowKey sip sp dip dp) =
      some st1 := by simp [alookup]
  have htail := run_in_order_chain sip sp dip dp now rest
    { StreamTcp.TcpReassembler.new a b c d with
      streams := [(StreamTcp.flowKey sip sp dip dp, st1)]
      stream_stats := gs1 }
    st1 hlk1 hseg1
    (by rw [hnx1]; exact Nat.mod_lt _ (by norm_num [StreamTcp.M]))
    (by rw [hnx1]; exact hchain) hsafe
  simp only [List.map_cons, StreamTcp.runTcp, hrun, htail]
  simp only [StreamTcp.joinSome, StreamTcp.joinPayloads, List.map_cons, List.join]
  rw [joinSome_map_some]
  simp [StreamTcp.joinPayloads]

/-- Witness for the amended C1 theorem: spec scenario S3 in order — seq 1000
"Hello" then seq 1005 "World" emit "HelloWorld". -/
theorem C1_in_order_witness :
    StreamTcp.joinSome
        (StreamTcp.runTcp (StreamTcp.TcpReassembler.new 100 1024 1000 1000) 0
          (([⟨1000, 0, 24, 65535, [72, 101, 108, 108, 111]⟩,
             ⟨1005, 0, 24, 65535, [87, 111, 114, 108, 100]⟩] :
              List StreamTcp.SegIn).map
            (StreamTcp.SegIn.toPkt 3232235777 12345 3232235778 80))).1 =
      StreamTcp.joinPayloads
        [⟨1000, 0, 24, 65535, [72, 101, 108, 108, 111]⟩,
         ⟨1005, 0, 24, 65535, [87, 111, 114, 108, 100]⟩] :=
  C1_in_order_delivery 100 1024 1000 1000 3232235777 12345 3232235778 80 0
    ⟨1000, 0, 24, 65535, [72, 101, 108, 108, 111]⟩
    [⟨1005, 0, 24, 65535, [87, 111, 114, 108, 100]⟩]
    (by decide) (by decide) (by decide) (by decide) (by decide)

/-! ## IP defragmenter (src/rust_core/src/defrag/defrag.rs) -/

namespace Defrag

/-- FRAGMENT_TIMEOUT: 30 seconds (Instants modelled in seconds). -/
def FRAGMENT_TIMEOUT : Nat := 30

/-- MAX_FRAGMENT_SIZE. -/
def MAX_FRAGMENT_SIZE : Nat := 65535

/-- MAX_FRAGMENT_GROUPS. -/
def MAX_FRAGMENT_GROUPS : Nat := 10000

/-- PacketError variants of crate::error reachable from defrag.rs (the
source wraps them as ReassembleError::PacketError(...); the wrapping is a
constant injection and is elided). -/
inductive PacketError where
  | IncompleteFragment
  | InvalidFragment
  | TooManyFragments
  | ReassemblyFailed
deriving DecidableEq

/-- FragmentPolicy of defrag.rs; default First. -/
inductive FragmentPolicy where
  | First
  | Last
  | Longest
deriving DecidableEq

/-- Fragment of defrag.rs.  length is data.len() cast to u16; the timestamp
field is dropped (it is written but never read on the modelled paths). -/
structure Fragment where
  offset : Nat
  data : List Nat
  more_fragments : Bool
  length : Nat
deriving DecidableEq

/-- Fragment::new. -/
def Fragment.new (offset : Nat) (data : List Nat) (more_fragments : Bool) :
    Fragment :=
  ⟨offset, data, more_fragments, data.length % 65536⟩

/-- Fragment::overlaps_with: byte ranges computed in u32
(offset as u32 * 8 cannot overflow for u16 offsets). -/
def overlaps_with (a b : Fragment) : Bool :=
  let self_start := a.offset * 8
  let self_end := self_start + a.length
  let other_start := b.offset * 8
  let other_end := other_start + b.length
  decide (self_start < other_end) && decide (other_start < self_end)

/-- FragmentGroup of defrag.rs; fragments is the BTreeMap keyed by offset,
last_update the Nat model of its Instant. -/
structure FragmentGroup where
  fragments : List (Nat × Fragment)
  total_length : Nat
  last_update : Nat
  policy : FragmentPolicy
  source_ip : Nat
  dest_ip : Nat
  identification : Nat
  protocol : Nat
  flags : Nat
  ttl : Nat
  tos : Nat
deriving DecidableEq

/-- FragmentGroup::new (last_update := Instant::now()). -/
def FragmentGroup.new (source_ip dest_ip identification protocol : Nat)
    (policy : FragmentPolicy) (now : Nat) : FragmentGroup :=
  { fragments := []
    total_length := 0
    last_update := now
    policy := policy
    source_ip := source_ip
    dest_ip := dest_ip
    identification := identification
    protocol := protocol
    flags := 0
    ttl := 64
    tos := 0 }

/-- Longest-policy scan over the map for a new overlapping fragment: stop
(keep existing) at the first overlapping fragment at least as long as the
new one; otherwise collect the overlapping offsets for removal. -/
def longestScan (fragment : Fragment) :
    List (Nat × Fragment) → Option (List Nat)
  | [] => some []
  | (existing_offset, existing) :: rest =>
    if overlaps_with fragment existing then
      if fragment.length ≤ existing.length then none
      else match longestScan fragment rest with
        | none => none
        | some l => some (existing_offset :: l)
    else longestScan fragment rest

/-- FragmentGroup::add_fragment: returns Ok(inserted?) and the updated group
(the source's Result is always Ok; no error path exists). -/
def add_fragment (g : FragmentGroup) (fragment : Fragment) :
    Bool × FragmentGroup :=
  let offset := fragment.offset
  match alookup g.fragments offset with
  | some existing =>
    match g.policy with
    | .First => (false, g)
    | .Last => (true, { g with fragments := sortedInsert g.fragments offset fragment })
    | .Longest =>
      if existing.length < fragment.length then
        (true, { g with fragments := sortedInsert g.fragments offset fragment })
      else (false, g)
  | none =>
    let has_overlap := g.fragments.any fun p => overlaps_with fragment p.2
    if has_overlap then
      match g.policy with
      | .First => (false, g)
      | .Last =>
        let pruned := g.fragments.filter fun p => !overlaps_with fragment p.2
        (true, { g with fragments := sortedInsert pruned offset fragment })
      | .Longest =>
        match longestScan fragment g.fragments with
        | none => (false, g)
        | some to_remove =>
          let pruned := to_remove.foldl (fun fs o => aerase fs o) g.fragments
          (true, { g with fragments := sortedInsert pruned offset fragment })
    else (true, { g with fragments := sortedInsert g.fragments offset fragment })

/-- The walk of FragmentGroup::is_complete: offsets must follow the expected
chain (first 0, then offset + (length + 7) / 8 computed in u16: both the
addition length + 7 and the final addition wrap mod 2^16, as the release-mode
Rust does at defrag.rs:249), and some fragment must have more_fragments
false. -/
def completeWalk : List (Nat × Fragment) → Nat → Bool → Bool
  | [], _, has_last => has_last
  | (offset, f) :: rest, expected, has_last =>
    if offset ≠ expected then false
    else completeWalk rest ((offset + (f.length + 7) % 65536 / 8) % 65536)
      (has_last || !f.more_fragments)

/-- FragmentGroup::is_complete. -/
def is_complete (g : FragmentGroup) : Bool :=
  if g.fragments = [] then false
  else completeWalk g.fragments 0 false

/-- Buffer size computed by reassemble: fold max of each fragment's
byte end (u16 arithmetic: offset * 8 wraps mod 65536; fragment_end likewise). -/
def reassembleTotal (frags : List (Nat × Fragment)) : Nat :=
  frags.foldl
    (fun total p =>
      let fragment_end := (p.1 * 8 % 65536 + p.2.length) % 65536
      if total < fragment_end then fragment_end else total)
    0

/-- copy_from_slice of data into buf at [start, start + data.len()); callers
ensure the range is in bounds. -/
def writeAt (buf : List Nat) (start : Nat) (data : List Nat) : List Nat :=
  buf.take start ++ data ++ buf.drop (start + data.length)

/-- The write loop of reassemble: each fragment's bytes go to byte offset
offset*8 (u16), with an InvalidFragment error if the write would run past the
buffer. -/
def writeFrags : List (Nat × Fragment) → List Nat → Except PacketError (List Nat)
  | [], buf => .ok buf
  | (offset, f) :: rest, buf =>
    let start := offset * 8 % 65536
    let stop := start + f.data.length
    if buf.length < stop then .error .InvalidFragment
    else writeFrags rest (writeAt buf start f.data)

/-- FragmentGroup::reassemble. -/
def reassemble (g : FragmentGroup) : Except PacketError (List Nat) :=
  if is_complete g = false then .error .IncompleteFragment
  else writeFrags g.fragments (List.replicate (reassembleTotal g.fragments) 0)

/-- Group-expiry predicate: now.duration_since(last_update) > 30s. -/
def is_expired (g : FragmentGroup) (now : Nat) : Bool :=
  decide (FRAGMENT_TIMEOUT < now - g.last_update)

/-- Statistics counters of the defragmenter (AtomicStats). -/
structure DefragStats where
  total_fragments : Nat
  total_length : Nat
  expired_groups : Nat
  reassembled_packets : Nat
  overlapping_fragments : Nat
deriving DecidableEq

/-- AtomicStats::new. -/
def DefragStats.new : DefragStats := ⟨0, 0, 0, 0, 0⟩

/-- IpDefragmenter of defrag.rs; the HashMap keyed by
(source_ip, dest_ip, identification) is an association list. -/
structure IpDefragmenter where
  fragments : List ((Nat × Nat × Nat) × FragmentGroup)
  stats : DefragStats
  policy : FragmentPolicy
  max_groups : Nat
deriving DecidableEq

/-- IpDefragmenter::new. -/
def IpDefragmenter.new : IpDefragmenter :=
  ⟨[], DefragStats.new, .First, MAX_FRAGMENT_GROUPS⟩

/-- IpDefragmenter::with_policy. -/
def IpDefragmenter.with_policy (policy : FragmentPolicy) : IpDefragmenter :=
  ⟨[], DefragStats.new, policy, MAX_FRAGMENT_GROUPS⟩

/-- IpDefragmenter::set_max_groups. -/
def set_max_groups (d : IpDefragmenter) (max_groups : Nat) : IpDefragmenter :=
  { d with max_groups := max_groups }

/-- cleanup_expired_groups. -/
def cleanup_expired_groups (d : IpDefragmenter) (now : Nat) : IpDefragmenter :=
  let kept := d.fragments.filter fun p => !is_expired p.2 now
  let expired_count := d.fragments.length - kept.length
  { d with fragments := kept
           stats := { d.stats with
             expired_groups := d.stats.expired_groups + expired_count } }

/-- validate_fragment_packet (the fragment_offset bound is vacuous for u16
offsets and kept for fidelity). -/
def validate_fragment_packet (packet : Core.Pkt) : Bool :=
  !decide (MAX_FRAGMENT_SIZE < packet.ip_header.fragment_offset)
    && !decide (MAX_FRAGMENT_SIZE < packet.payload.length)
    && (decide (packet.ip_header.protocol = 6)
      || decide (packet.ip_header.protocol = 17))

/-- Payload of the transport variant, as process_packet extracts it. -/
def transportPayload (packet : Core.Pkt) : List Nat :=
  match packet.protocol with
  | .TCP _ _ _ _ _ _ payload => payload
  | .UDP _ _ payload => payload

/-- create_reassembled_packet of defrag.rs
(total_length is (len + 20) as u16). -/
def create_reassembled_packet (original : Core.Pkt) (reassembled_data : List Nat) :
    Core.Pkt :=
  { original with
    ip_header :=
      { original.ip_header with
        fragment_offset := 0
        more_fragments := false
        total_length := (reassembled_data.length + 20) % 65536 }
    payload := reassembled_data
    protocol :=
      match original.protocol with
      | .TCP seq ack flags window sp dp _ => .TCP seq ack flags window sp dp reassembled_data
      | .UDP sp dp _ => .UDP sp dp reassembled_data }

/-- IpDefragmenter::process_packet (defrag.rs lines 414..517), with `now`
standing for the Instant::now() values taken during the call. -/
def process_packet (d : IpDefragmenter) (packet : Core.Pkt) (now : Nat) :
    Except PacketError (Option Core.Pkt) × IpDefragmenter :=
  if validate_fragment_packet packet = false then (.ok none, d)
  else
    let d1 := cleanup_expired_groups d now
    let key := (packet.ip_header.source_ip, packet.ip_header.dest_ip,
      packet.ip_header.identification)
    let fragment := Fragment.new packet.ip_header.fragment_offset
      (transportPayload packet) packet.ip_header.more_fragments
    if d1.max_groups ≤ d1.fragments.length ∧ (alookup d1.fragments key).isNone then
      (.error .TooManyFragments, d1)
    else
      let group0 := (alookup d1.fragments key).getD
        (FragmentGroup.new packet.ip_header.source_ip packet.ip_header.dest_ip
          packet.ip_header.identification packet.ip_header.protocol d1.policy now)
      let d2 := { d1 with stats :=
        { d1.stats with
          total_fragments := d1.stats.total_fragments + 1
          total_length := d1.stats.total_length + fragment.data.length } }
      let r := add_fragment group0 fragment
      if r.1 = false then
        (.ok none, { d2 with fragments := aupsert d2.fragments key r.2 })
      else
        let group2 := { r.2 with last_update := now }
        if is_complete group2 then
          match reassemble group2 with
          | .ok reassembled_data =>
            let d3 := { d2 with stats :=
              { d2.stats with
                reassembled_packets := d2.stats.reassembled_packets + 1 } }
            let rp := create_reassembled_packet packet reassembled_data
            (.ok (some rp), { d3 with fragments := aerase d3.fragments key })
          | .error e => (.error e, { d2 with fragments := aupsert d2.fragments key group2 })
        else
          (.ok none, { d2 with fragments := aupsert d2.fragments key group2 })

/-- Feed a list of packets in order, collecting every result. -/
def runDefrag (d : IpDefragmenter) (now : Nat) :
    List Core.Pkt → List (Except PacketError (Option Core.Pkt)) × IpDefragmenter
  | [] => ([], d)
  | p :: ps =>
    let r := process_packet d p now
    let rest := runDefrag r.2 now ps
    (r.1 :: rest.1, rest.2)

end Defrag

/-! ## Claim C6 -/

namespace Defrag

/-- Spec condition (a): the first fragment has offset 0 (false for an empty
group, which the spec treats as incomplete).  Stated from the spec's words
for comparison with is_complete. -/
def specFirstZero (g : FragmentGroup) : Bool :=
  match g.fragments with
  | [] => false
  | (o, _) :: _ => decide (o = 0)

/-- Spec condition (b): adjacent fragments are contiguous,
F[i].offset + ceil(F[i].len/8) = F[i+1].offset.  Stated from the spec's words. -/
def specContiguous : List (Nat × Fragment) → Bool
  | [] => true
  | [_] => true
  | (o1, f1) :: (o2, f2) :: rest =>
    decide (o2 = o1 + (f1.length + 7) / 8) && specContiguous ((o2, f2) :: rest)

/-- Spec condition (c): exactly one fragment has more_fragments = false and
it is the last one.  Stated from the spec's words. -/
def specLastOnly (l : List (Nat × Fragment)) : Bool :=
  decide ((l.countP fun p => !p.2.more_fragments) = 1)
    && (match l.getLast? with
        | none => false
        | some p => !p.2.more_fragments)

/-- The code's actual condition (c'): at least one fragment, anywhere in the
group, has more_fragments = false. -/
def anyFinal (l : List (Nat × Fragment)) : Bool :=
  l.any fun p => !p.2.more_fragments

/-- The code's actual condition (b'): adjacent fragments are contiguous
under the wrapping u16 expected-offset arithmetic of is_complete,
F[i+1].offset = (F[i].offset + (F[i].length + 7) % 2^16 / 8) % 2^16. -/
def wrapContiguous : List (Nat × Fragment) → Bool
  | [] => true
  | [_] => true
  | (o1, f1) :: (o2, f2) :: rest =>
    decide (o2 = (o1 + (f1.length + 7) % 65536 / 8) % 65536)
      && wrapContiguous ((o2, f2) :: rest)

/-- Offset-chain form of the is_complete walk, anchored at an expected
offset (successor computed in wrapping u16, as the walk does). -/
def chainFrom : Nat → List (Nat × Fragment) → Bool
  | _, [] => true
  | expected, (o, f) :: r =>
    decide (o = expected) && chainFrom ((o + (f.length + 7) % 65536 / 8) % 65536) r

end Defrag

/-- The is_complete walk splits into the offset chain and the
has-a-final-fragment test. -/
theorem completeWalk_eq (l : List (Nat × Defrag.Fragment)) :
    ∀ (expected : Nat) (b : Bool),
      Defrag.completeWalk l expected b =
        (Defrag.chainFrom expected l && (b || Defrag.anyFinal l)) := by
  induction l with
  | nil => intro expected b; simp [Defrag.completeWalk, Defrag.chainFrom, Defrag.anyFinal]
  | cons p r ih =>
    intro expected b
    obtain ⟨o, f⟩ := p
    by_cases h : o = expected
    · simp only [Defrag.completeWalk, Defrag.chainFrom, Defrag.anyFinal, h, ih,
        List.any_cons]
      simp [Bool.or_assoc, Defrag.anyFinal]
    · simp [Defrag.completeWalk, Defrag.chainFrom, h]

/-- The anchored chain from an element's own (wrapped) successor offset is
exactly the adjacent-contiguity check in wrapping u16 arithmetic. -/
theorem chainFrom_cons_eq_wrapContiguous (r : List (Nat × Defrag.Fragment)) :
    ∀ (o : Nat) (f : Defrag.Fragment),
      Defrag.chainFrom ((o + (f.length + 7) % 65536 / 8) % 65536) r =
        Defrag.wrapContiguous ((o, f) :: r) := by
  induction r with
  | nil => intro o f; rfl
  | cons q r2 ih =>
    intro o f
    obtain ⟨o2, f2⟩ := q
    simp only [Defrag.chainFrom, Defrag.wrapContiguous, ih]

/-- C6, amended: a fragment group is judged complete by is_complete iff
(a) its first fragment has offset 0, (b') adjacent fragments are contiguous
under the WRAPPING u16 expected-offset arithmetic of the walk (offset +
(length + 7) / 8 with both additions mod 2^16 — for fragments of 65529..65535
bytes this wraps and differs from the spec's untruncated formula), and
(c') AT LEAST ONE fragment — anywhere, not necessarily unique and not
necessarily the last — has more_fragments = false.  The spec's condition (c)
(exactly one final fragment, in last position) is not what the code tests. -/
theorem C6_complete_characterization (g : Defrag.FragmentGroup) :
    Defrag.is_complete g =
      (Defrag.specFirstZero g && Defrag.wrapContiguous g.fragments
        && Defrag.anyFinal g.fragments) := by
  unfold Defrag.is_complete Defrag.specFirstZero
  cases hl : g.fragments with
  | nil => simp
  | cons p r =>
    obtain ⟨o, f⟩ := p
    simp only [completeWalk_eq, Defrag.chainFrom, Bool.false_or]
    rw [chainFrom_cons_eq_wrapContiguous]
    simp [Bool.and_assoc]

/-- A group in which the non-final fragment (offset 0, "abcdefgh") carries
more_fragments = false while the last fragment (offset 1, "ijkl") carries
more_fragments = true. -/
def c6group : Defrag.FragmentGroup :=
  { fragments :=
      [(0, ⟨0, [97, 98, 99, 100, 101, 102, 103, 104], false, 8⟩),
       (1, ⟨1, [105, 106, 107, 108], true, 4⟩)]
    total_length := 0
    last_update := 0
    policy := .First
    source_ip := 1
    dest_ip := 2
    identification := 3
    protocol := 6
    flags := 0
    ttl := 64
    tos := 0 }

/-- A group satisfying the spec's (a), (b) and (c) exactly: a 65535-byte
fragment at offset 0 with MF set, and the final fragment at the
ceil-contiguous offset (65535 + 7) / 8 = 8192 with MF clear.  The u16
expected-offset arithmetic of is_complete wraps on it: 65535 + 7 is 6 mod
2^16, so the walk expects offset 0 next, not 8192. -/
def c6wrapGroup : Defrag.FragmentGroup :=
  { fragments :=
      [(0, ⟨0, List.replicate 65535 0, true, 65535⟩),
       (8192, ⟨8192, [1, 2, 3, 4], false, 4⟩)]
    total_length := 0
    last_update := 0
    policy := .First
    source_ip := 1
    dest_ip := 2
    identification := 3
    protocol := 6
    flags := 0
    ttl := 64
    tos := 0 }

/-- C6, counterexample, both directions of the claimed equivalence: the code
judges c6group complete and reassembles it although its MF = false fragment
is not the last one (only-if direction and the never-reassembled clause
fail), and it judges c6wrapGroup incomplete although that group satisfies the
spec's (a), (b) and (c) verbatim, because the expected-offset chain is
computed in wrapping u16 arithmetic (if direction fails). -/
theorem C6_counterexample :
    (Defrag.is_complete c6group = true ∧
      Defrag.specLastOnly c6group.fragments = false ∧
      Defrag.reassemble c6group =
        .ok [97, 98, 99, 100, 101, 102, 103, 104, 105, 106, 107, 108]) ∧
    (Defrag.specFirstZero c6wrapGroup = true ∧
      Defrag.specContiguous c6wrapGroup.fragments = true ∧
      Defrag.specLastOnly c6wrapGroup.fragments = true ∧
      Defrag.is_complete c6wrapGroup = false) := by
  refine ⟨⟨by decide, by decide, by rfl⟩,
    by decide, by decide, by decide, by decide⟩

/-! ## Claim C5 -/

/-- Non-fragment TCP packet (fragment_offset 0, more_fragments false) with
total_length 40 and a 5-byte payload "Hello". -/
def c5pkt : Core.Pkt :=
  ⟨⟨4, 5, 0, 40, 7, 0, 0, false, 64, 6, 0, 10, 11⟩,
    .TCP 0 0 24 65535 12345 80 [72, 101, 108, 108, 111], 0,
    [72, 101, 108, 108, 111]⟩

/-- What the defragmenter actually returns for c5pkt: the same packet with
total_length rewritten to 25 (= payload + 20). -/
def c5out : Core.Pkt :=
  ⟨⟨4, 5, 0, 25, 7, 0, 0, false, 64, 6, 0, 10, 11⟩,
    .TCP 0 0 24 65535 12345 80 [72, 101, 108, 108, 111], 0,
    [72, 101, 108, 108, 111]⟩

/-- C5, counterexample: a non-fragment packet is NOT passed through
unchanged — its total_length field is rewritten (40 becomes 25), and the
fragment-group machinery is exercised (total_fragments and
reassembled_packets are counted for it). -/
theorem C5_counterexample :
    (Defrag.process_packet Defrag.IpDefragmenter.new c5pkt 0).1 = .ok (some c5out) ∧
      c5out ≠ c5pkt ∧
      (Defrag.process_packet Defrag.IpDefragmenter.new c5pkt 0).2.stats.total_fragments = 1 ∧
      (Defrag.process_packet Defrag.IpDefragmenter.new c5pkt 0).2.stats.reassembled_packets = 1 := by
  refine ⟨by rfl, by decide, by rfl, by rfl⟩

/-- Lemma: removing an absent key leaves an association list unchanged. -/
theorem aerase_of_alookup_none {κ α : Type} [DecidableEq κ]
    (l : List (κ × α)) (k : κ) (h : alookup l k = none) : aerase l k = l := by
  induction l with
  | nil => rfl
  | cons p r ih =>
    obtain ⟨k', v⟩ := p
    by_cases hk : k' = k
    · simp [alookup, hk] at h
    · simp only [aerase, if_neg hk]
      rw [ih]
      simpa [alookup, hk] using h

/-- C5, amended: a non-fragment packet with a TCP/UDP protocol number is
routed through the fragment-group machinery as a one-fragment group that is
immediately complete: given a fresh key, a defragmenter below its group cap
with no expired group, and the transport payload agreeing with the packet
payload, process_packet returns Ok(Some p') where p' is the input packet with
total_length rewritten to payload_len + 20 (fragment_offset 0 and
more_fragments false as they already were, payload preserved), and the
temporary group is removed again: the fragment-group map ends exactly as it
started.  Non-fragment packets of any other protocol return Ok(None) and are
swallowed. -/
theorem C5_nonfragment_routed (d : Defrag.IpDefragmenter) (p : Core.Pkt) (now : Nat)
    (hvalid : Defrag.validate_fragment_packet p = true)
    (hfrag0 : p.ip_header.fragment_offset = 0)
    (hmf : p.ip_header.more_fragments = false)
    (hpay : Defrag.transportPayload p = p.payload)
    (hfresh : alookup d.fragments
      (p.ip_header.source_ip, p.ip_header.dest_ip, p.ip_header.identification) = none)
    (hcap : d.fragments.length < d.max_groups)
    (hnoexp : ∀ q ∈ d.fragments, Defrag.is_expired q.2 now = false) :
    (Defrag.process_packet d p now).1 =
        .ok (some (Defrag.create_reassembled_packet p p.payload)) ∧
      (Defrag.process_packet d p now).2.fragments = d.fragments := by
  have hlen : p.payload.length ≤ 65535 := by
    unfold Defrag.validate_fragment_packet Defrag.MAX_FRAGMENT_SIZE at hvalid
    simp only [Bool.and_eq_true, Bool.not_eq_true', decide_eq_false_iff_not,
      Nat.not_lt] at hvalid
    exact hvalid.1.2
  have hmod : p.payload.length % 65536 = p.payload.length :=
    Nat.mod_eq_of_lt (by omega)
  have hkept : d.fragments.filter (fun q => !Defrag.is_expired q.2 now) = d.fragments := by
    rw [List.filter_eq_self]
    intro a ha
    simp [hnoexp a ha]
  have hncap : ¬ (d.max_groups ≤ d.fragments.length) := Nat.not_le.mpr hcap
  have hdrop : (List.replicate p.payload.length (0 : Nat)).drop
      p.payload.length = [] :=
    List.drop_eq_nil_of_le (by simp)
  have hif : ∀ n : Nat, (if 0 < n then n else 0) = n := by
    intro n; split <;> omega
  constructor <;>
    simp [Defrag.process_packet, Defrag.cleanup_expired_groups, hkept, hfresh,
      hncap, Defrag.Fragment.new, hfrag0, hmf, hpay, hmod,
      Defrag.FragmentGroup.new, Defrag.add_fragment, alookup, sortedInsert,
      Defrag.is_complete, Defrag.completeWalk, Defrag.reassemble,
      Defrag.reassembleTotal, Defrag.writeFrags, Defrag.writeAt, hif, hdrop,
      hvalid, aerase_of_alookup_none, List.foldl]

/-- Witness for the amended C5 theorem at the concrete packet c5pkt on a
fresh defragmenter. -/
theorem C5_amended_witness :
    (Defrag.process_packet Defrag.IpDefragmenter.new c5pkt 0).1 =
        .ok (some (Defrag.create_reassembled_packet c5pkt c5pkt.payload)) ∧
      (Defrag.process_packet Defrag.IpDefragmenter.new c5pkt 0).2.fragments =
        Defrag.IpDefragmenter.new.fragments :=
  C5_nonfragment_routed Defrag.IpDefragmenter.new c5pkt 0 (by decide) (by decide)
    (by decide) (by decide) (by decide) (by decide) (by decide)

/-! ## Claim C9 -/

/-- C9: when the defragmenter already holds max_groups fragment groups (none
of them expired at the processing instant) and a valid fragment with a fresh
(source_ip, dest_ip, identification) key arrives, process_packet returns the
TooManyFragments error and the state — every existing fragment group and the
statistics — is returned unchanged. -/
theorem C9_too_many_fragments (d : Defrag.IpDefragmenter) (p : Core.Pkt) (now : Nat)
    (hvalid : Defrag.validate_fragment_packet p = true)
    (hnoexp : ∀ q ∈ d.fragments, Defrag.is_expired q.2 now = false)
    (hcap : d.max_groups ≤ d.fragments.length)
    (hfresh : alookup d.fragments
      (p.ip_header.source_ip, p.ip_header.dest_ip, p.ip_header.identification) = none) :
    Defrag.process_packet d p now = (.error .TooManyFragments, d) := by
  have hkept : d.fragments.filter (fun q => !Defrag.is_expired q.2 now) = d.fragments := by
    rw [List.filter_eq_self]
    intro a ha
    simp [hnoexp a ha]
  simp [Defrag.process_packet, Defrag.cleanup_expired_groups, hkept, hvalid,
    hfresh, hcap]

/-- One pre-existing fragment group for the C9 witness. -/
def c9group : Defrag.FragmentGroup :=
  Defrag.FragmentGroup.new 10 11 100 6 .First 0

/-- A defragmenter whose group cap (set via set_max_groups, as in the repo's
own test_max_groups_limit) is already reached by one resident group. -/
def c9defrag : Defrag.IpDefragmenter :=
  Defrag.set_max_groups
    { Defrag.IpDefragmenter.new with fragments := [((10, 11, 100), c9group)] } 1

/-- A valid fragment whose (src, dst, id) key is new: identification 200. -/
def c9pkt : Core.Pkt :=
  ⟨⟨4, 5, 0, 28, 200, 1, 0, true, 64, 6, 0, 10, 11⟩,
    .TCP 0 0 0 65535 1234 5678 [83, 101, 99, 111, 110, 100, 49, 50], 0,
    [83, 101, 99, 111, 110, 100, 49, 50]⟩

/-- Witness for C9 at the concrete capped defragmenter. -/
theorem C9_witness :
    Defrag.process_packet c9defrag c9pkt 0 = (.error .TooManyFragments, c9defrag) :=
  C9_too_many_fragments c9defrag c9pkt 0 (by decide) (by decide) (by decide)
    (by decide)

/-! ## Claim C4: splitting a payload into fragments -/

namespace Defrag

/-- Total byte length of a chunk list. -/
def sumLen (ds : List (List Nat)) : Nat := (ds.map List.length).sum

/-- Well-formed splitting of a payload: at least one chunk, every chunk
non-empty, and every chunk except the last a multiple of 8 bytes (so that
offsets in 8-byte units can cover the payload contiguously, as IP
fragmentation requires). -/
def chunksOk : List (List Nat) → Bool
  | [] => false
  | [d] => decide (d ≠ [])
  | d :: d2 :: rest =>
    decide (d ≠ []) && decide (d.length % 8 = 0) && chunksOk (d2 :: rest)

/-- The canonical fragments of a splitting: chunk i sits at 8-byte-unit
offset off + (preceding lengths)/8, with more_fragments set on all but the
last. -/
def buildFrags (off : Nat) : List (List Nat) → List Fragment
  | [] => []
  | [d] => [Fragment.new off d false]
  | d :: d2 :: rest =>
    Fragment.new off d true :: buildFrags (off + d.length / 8) (d2 :: rest)

/-- The BTreeMap entries corresponding to a fragment list. -/
def pairsOf (l : List Fragment) : List (Nat × Fragment) :=
  l.map fun f => (f.offset, f)

/-- The fragments of F whose offsets have been received. -/
def selOffsets (F : List Fragment) (os : List Nat) : List Fragment :=
  F.filter fun g => decide (g.offset ∈ os)

/-- The fragments of F not yet received. -/
def remOffsets (F : List Fragment) (os : List Nat) : List Fragment :=
  F.filter fun g => !decide (g.offset ∈ os)

/-- Wrap a fragment into the decoded packet carrying it (fixed plausible
header values; the defragmenter reads addresses, identification, protocol,
fragment_offset, more_fragments and the payloads). -/
def mkFragPkt (sip dip ident : Nat) (f : Fragment) : Core.Pkt :=
  ⟨⟨4, 5, 0, (20 + f.data.length) % 65536, ident, 0, f.offset, f.more_fragments,
      64, 6, 0, sip, dip⟩,
    .TCP 0 0 0 65535 1234 5678 f.data, 0, f.data⟩

/-- The packet the defragmenter returns for payload P on this flow:
fragment_offset 0, more_fragments false, total_length = payload + 20. -/
def expectedReassembled (sip dip ident : Nat) (P : List Nat) : Core.Pkt :=
  ⟨⟨4, 5, 0, P.length + 20, ident, 0, 0, false, 64, 6, 0, sip, dip⟩,
    .TCP 0 0 0 65535 1234 5678 P, 0, P⟩

end Defrag

/-- Membership facts about built fragments: offsets start at off, each byte
range stays within the chunk span, the u16 length field is the cast data
length, and the data is non-empty. -/
theorem mem_buildFrags (ds : List (List Nat)) :
    ∀ (off : Nat) (g : Defrag.Fragment), Defrag.chunksOk ds = true →
      g ∈ Defrag.buildFrags off ds →
      off ≤ g.offset ∧
        8 * g.offset + g.data.length ≤ 8 * off + Defrag.sumLen ds ∧
        g.length = g.data.length % 65536 ∧ g.data ≠ [] := by
  induction ds with
  | nil => intro off g _ hm; simp [Defrag.buildFrags] at hm
  | cons d rest ih =>
    intro off g hok hm
    cases rest with
    | nil =>
      simp only [Defrag.chunksOk, decide_eq_true_eq] at hok
      simp only [Defrag.buildFrags, List.mem_singleton] at hm
      subst hm
      refine ⟨le_refl _, ?_, rfl, hok⟩
      simp [Defrag.sumLen, Defrag.Fragment.new]
    | cons d2 rest2 =>
      simp only [Defrag.chunksOk, Bool.and_eq_true, decide_eq_true_eq] at hok
      obtain ⟨⟨hd, hdvd⟩, hok2⟩ := hok
      have h8 : d.length / 8 * 8 = d.length := Nat.div_mul_cancel
        (Nat.dvd_of_mod_eq_zero hdvd)
      simp only [Defrag.buildFrags, List.mem_cons] at hm
      rcases hm with hm | hm
      · subst hm
        refine ⟨le_refl _, ?_, rfl, hd⟩
        have : 0 < d.length := List.length_pos.mpr hd
        simp only [Defrag.sumLen, List.map_cons, List.sum_cons, Defrag.Fragment.new]
        omega
      · obtain ⟨h1, h2, h3, h4⟩ := ih (off + d.length / 8) g hok2 hm
        refine ⟨by omega, ?_, h3, h4⟩
        simp only [Defrag.sumLen, List.map_cons, List.sum_cons] at h2 ⊢
        omega

/-- Built fragments are pairwise byte-disjoint in ascending order. -/
theorem pairwise_buildFrags (ds : List (List Nat)) :
    ∀ (off : Nat), Defrag.chunksOk ds = true →
      (Defrag.buildFrags off ds).Pairwise
        (fun x y => 8 * x.offset + x.data.length ≤ 8 * y.offset) := by
  induction ds with
  | nil => intro off _; simp [Defrag.buildFrags]
  | cons d rest ih =>
    intro off hok
    cases rest with
    | nil => simp [Defrag.buildFrags]
    | cons d2 rest2 =>
      simp only [Defrag.chunksOk, Bool.and_eq_true, decide_eq_true_eq] at hok
      obtain ⟨⟨hd, hdvd⟩, hok2⟩ := hok
      have h8 : d.length / 8 * 8 = d.length := Nat.div_mul_cancel
        (Nat.dvd_of_mod_eq_zero hdvd)
      simp only [Defrag.buildFrags, List.pairwise_cons]
      constructor
      · intro y hy
        have h1 := (mem_buildFrags (d2 :: rest2) (off + d.length / 8) y hok2 hy).1
        simp only [Defrag.Fragment.new]
        omega
      · exact ih (off + d.length / 8) hok2

/-- Built fragments have strictly increasing offsets. -/
theorem offsets_strictmono_buildFrags (ds : List (List Nat)) (off : Nat)
    (hok : Defrag.chunksOk ds = true) :
    (Defrag.buildFrags off ds).Pairwise (fun x y => x.offset < y.offset) := by
  refine (pairwise_buildFrags ds off hok).imp_of_mem ?_
  intro x y hx _ h
  have hxd := (mem_buildFrags ds off x hok hx).2.2.2
  have : 0 < x.data.length := List.length_pos.mpr hxd
  omega

/-- Distinct built fragments have distinct offsets. -/
theorem offset_inj_buildFrags (ds : List (List Nat)) (off : Nat)
    (hok : Defrag.chunksOk ds = true) {a b : Defrag.Fragment}
    (ha : a ∈ Defrag.buildFrags off ds) (hb : b ∈ Defrag.buildFrags off ds)
    (hne : a.offset = b.offset) : a = b := by
  by_contra hab
  have hp : (Defrag.buildFrags off ds).Pairwise
      (fun x y : Defrag.Fragment => x.offset ≠ y.offset) :=
    (offsets_strictmono_buildFrags ds off hok).imp fun h => Nat.ne_of_lt h
  have hs : Symmetric (fun x y : Defrag.Fragment => x.offset ≠ y.offset) :=
    fun x y h => Ne.symm h
  exact hp.forall hs ha hb hab hne

/-- Selecting no offsets selects no fragments. -/
theorem sel_nil (F : List Defrag.Fragment) : Defrag.selOffsets F [] = [] := by
  simp [Defrag.selOffsets]

/-- Lookup misses in a pair list whose keys avoid k. -/
theorem alookup_pairsOf_none (l : List Defrag.Fragment) (k : Nat)
    (h : ∀ g ∈ l, g.offset ≠ k) : alookup (Defrag.pairsOf l) k = none := by
  induction l with
  | nil => rfl
  | cons g r ih =>
    simp only [Defrag.pairsOf, List.map_cons, alookup]
    rw [if_neg (h g (by simp))]
    exact ih fun x hx => h x (by simp [hx])

/-- Inserting below every key of a sorted pair list prepends. -/
theorem sortedInsert_head_lt {α : Type} (l : List (Nat × α)) (k : Nat) (v : α)
    (h : ∀ p ∈ l, k < p.1) : sortedInsert l k v = (k, v) :: l := by
  cases l with
  | nil => rfl
  | cons p r =>
    obtain ⟨k', v'⟩ := p
    simp only [sortedInsert]
    rw [if_pos (h (k', v') (by simp))]

/-- BTreeMap insertion of a fresh fragment into the received-offsets
selection is the selection of the enlarged offset set. -/
theorem sortedInsert_sel :
    ∀ (F : List Defrag.Fragment),
      F.Pairwise (fun x y => x.offset < y.offset) →
      ∀ (os : List Nat) (f : Defrag.Fragment), f ∈ F → f.offset ∉ os →
        sortedInsert (Defrag.pairsOf (Defrag.selOffsets F os)) f.offset f =
          Defrag.pairsOf (Defrag.selOffsets F (f.offset :: os)) := by
  intro F
  induction F with
  | nil => intro _ os f hf; simp at hf
  | cons g F2 ih =>
    intro hst os f hf hno
    rw [List.pairwise_cons] at hst
    obtain ⟨hglt, hst2⟩ := hst
    rcases List.mem_cons.mp hf with rfl | hf2
    · have hsel : Defrag.selOffsets (f :: F2) os = Defrag.selOffsets F2 os := by
        simp [Defrag.selOffsets, List.filter_cons, hno]
      have hsel2 : Defrag.selOffsets F2 (f.offset :: os) = Defrag.selOffsets F2 os := by
        apply List.filter_congr
        intro x hx
        have hne : x.offset ≠ f.offset := Nat.ne_of_gt (hglt x hx)
        simp [hne]
      have hhead : ∀ p ∈ Defrag.pairsOf (Defrag.selOffsets F2 os), f.offset < p.1 := by
        intro p hp
        simp only [Defrag.pairsOf, List.mem_map] at hp
        obtain ⟨x, hx, rfl⟩ := hp
        exact hglt x (List.mem_of_mem_filter hx)
      have hsel3 : Defrag.selOffsets (f :: F2) (f.offset :: os) =
          f :: Defrag.selOffsets F2 (f.offset :: os) := by
        simp [Defrag.selOffsets, List.filter_cons]
      rw [hsel, sortedInsert_head_lt _ _ _ hhead, hsel3, hsel2]
      rfl
    · have hfg : g.offset < f.offset := hglt f hf2
      by_cases hg : g.offset ∈ os
      · have hsel : Defrag.selOffsets (g :: F2) os = g :: Defrag.selOffsets F2 os := by
          simp [Defrag.selOffsets, List.filter_cons, hg]
        have hsel2 : Defrag.selOffsets (g :: F2) (f.offset :: os) =
            g :: Defrag.selOffsets F2 (f.offset :: os) := by
          simp [Defrag.selOffsets, List.filter_cons, hg]
        rw [hsel, hsel2]
        simp only [Defrag.pairsOf, List.map_cons, sortedInsert]
        rw [if_neg (by omega), if_neg (by omega)]
        show (g.offset, g) ::
            sortedInsert (Defrag.pairsOf (Defrag.selOffsets F2 os)) f.offset f =
          (g.offset, g) :: Defrag.pairsOf (Defrag.selOffsets F2 (f.offset :: os))
        rw [ih hst2 os f hf2 hno]
      · have hne : f.offset ≠ g.offset := by omega
        have hsel : Defrag.selOffsets (g :: F2) os = Defrag.selOffsets F2 os := by
          simp [Defrag.selOffsets, List.filter_cons, hg]
        have hsel2 : Defrag.selOffsets (g :: F2) (f.offset :: os) =
            Defrag.selOffsets F2 (f.offset :: os) := by
          simp [Defrag.selOffsets, List.filter_cons, hg, hne.symm]
        rw [hsel, hsel2]
        exact ih hst2 os f hf2 hno

/-- A not-yet-received built fragment overlaps no received fragment. -/
theorem no_overlap_sel (ds : List (List Nat)) (hok : Defrag.chunksOk ds = true)
    (hb : Defrag.sumLen ds ≤ 65535) (os : List Nat) (f : Defrag.Fragment)
    (hf : f ∈ Defrag.buildFrags 0 ds) (hno : f.offset ∉ os) :
    ∀ g ∈ Defrag.selOffsets (Defrag.buildFrags 0 ds) os,
      Defrag.overlaps_with f g = false := by
  intro g hg
  have hgF : g ∈ Defrag.buildFrags 0 ds := List.mem_of_mem_filter hg
  have hgos : g.offset ∈ os := by
    have h := List.of_mem_filter hg
    simpa using h
  have hneo : f.offset ≠ g.offset := fun h => hno (h ▸ hgos)
  have hne : f ≠ g := fun h => hneo (congrArg Defrag.Fragment.offset h)
  have hfm := mem_buildFrags ds 0 f hok hf
  have hgm := mem_buildFrags ds 0 g hok hgF
  have hflen : f.length = f.data.length := by
    rw [hfm.2.2.1]; exact Nat.mod_eq_of_lt (by omega)
  have hglen : g.length = g.data.length := by
    rw [hgm.2.2.1]; exact Nat.mod_eq_of_lt (by omega)
  have hp : (Defrag.buildFrags 0 ds).Pairwise
      (fun x y : Defrag.Fragment =>
        8 * x.offset + x.data.length ≤ 8 * y.offset ∨
          8 * y.offset + y.data.length ≤ 8 * x.offset) :=
    (pairwise_buildFrags ds 0 hok).imp fun h => Or.inl h
  have hsym : Symmetric (fun x y : Defrag.Fragment =>
      8 * x.offset + x.data.length ≤ 8 * y.offset ∨
        8 * y.offset + y.data.length ≤ 8 * x.offset) :=
    fun x y h => h.symm
  have hR := hp.forall hsym hf hgF hne
  simp only [Defrag.overlaps_with, Bool.and_eq_false_iff, decide_eq_false_iff_not,
    Nat.not_lt, hflen, hglen]
  rcases hR with h | h
  · right; omega
  · left; omega

/-- Non-empty fragment lists out of non-trivial chunk lists. -/
theorem buildFrags_ne_nil (ds : List (List Nat)) (off : Nat)
    (hok : Defrag.chunksOk ds = true) : Defrag.buildFrags off ds ≠ [] := by
  cases ds with
  | nil => simp [Defrag.chunksOk] at hok
  | cons d rest => cases rest <;> simp [Defrag.buildFrags]

/-- The walk succeeds on a sub-collection of the built fragments exactly when
every fragment has been received. -/
theorem chain_sel_iff (ds : List (List Nat)) :
    ∀ (off : Nat) (sub : List Defrag.Fragment), Defrag.chunksOk ds = true →
      8 * off + Defrag.sumLen ds ≤ 65535 →
      List.Sublist sub (Defrag.buildFrags off ds) →
      ((Defrag.chainFrom off (Defrag.pairsOf sub)
          && Defrag.anyFinal (Defrag.pairsOf sub)) = true ↔
        sub = Defrag.buildFrags off ds) := by
  induction ds with
  | nil => intro off sub hok; simp [Defrag.chunksOk] at hok
  | cons d rest ih =>
    intro off sub hok hb hsub
    cases rest with
    | nil =>
      simp only [Defrag.buildFrags] at hsub ⊢
      rcases List.sublist_singleton.mp hsub with rfl | rfl
      · simp [Defrag.pairsOf, Defrag.anyFinal]
      · simp [Defrag.pairsOf, Defrag.anyFinal, Defrag.chainFrom, Defrag.Fragment.new]
    | cons d2 rest2 =>
      simp only [Defrag.chunksOk, Bool.and_eq_true, decide_eq_true_eq] at hok
      obtain ⟨⟨hd, hdvd⟩, hok2⟩ := hok
      have hdp : 0 < d.length := List.length_pos.mpr hd
      have hd8 : 8 ≤ d.length := by omega
      have hsum : Defrag.sumLen (d :: d2 :: rest2) =
          d.length + Defrag.sumLen (d2 :: rest2) := by
        simp [Defrag.sumLen]
      have hb2 : 8 * (off + d.length / 8) + Defrag.sumLen (d2 :: rest2) ≤ 65535 := by
        rw [hsum] at hb; omega
      simp only [Defrag.buildFrags] at hsub ⊢
      rcases List.sublist_cons_iff.mp hsub with hs2 | ⟨r, rfl, hs2⟩
      · constructor
        · intro hw
          exfalso
          cases sub with
          | nil => simp [Defrag.pairsOf, Defrag.anyFinal] at hw
          | cons s r =>
            have hsF2 : s ∈ Defrag.buildFrags (off + d.length / 8) (d2 :: rest2) :=
              hs2.subset (by simp)
            have hlow := (mem_buildFrags (d2 :: rest2) (off + d.length / 8) s
              hok2 hsF2).1
            simp only [Defrag.pairsOf, List.map_cons, Defrag.chainFrom,
              Bool.and_eq_true, decide_eq_true_eq] at hw
            have hoff : s.offset = off := hw.1.1
            omega
        · intro he
          exfalso
          have hlen := congrArg List.length he
          have := hs2.length_le
          simp at hlen
          omega
      · have hlen65 : d.length % 65536 = d.length :=
          Nat.mod_eq_of_lt (by have := hsum ▸ hb; omega)
        have hbsum : 8 * off + (d.length + Defrag.sumLen (d2 :: rest2)) ≤ 65535 := by
          rw [hsum] at hb; omega
        have hsucc : (off + (d.length % 65536 + 7) % 65536 / 8) % 65536 =
            off + d.length / 8 := by
          rw [hlen65]
          have h1 : (d.length + 7) % 65536 = d.length + 7 :=
            Nat.mod_eq_of_lt (by omega)
          rw [h1]
          have h2 : (d.length + 7) / 8 = d.length / 8 := by omega
          rw [h2]
          exact Nat.mod_eq_of_lt (by omega)
        simp only [Defrag.pairsOf, List.map_cons, Defrag.chainFrom,
          Defrag.anyFinal, List.any_cons, Defrag.Fragment.new, hsucc,
          decide_eq_true_eq, Bool.not_true, Bool.false_or,
          List.cons.injEq, true_and]
        rw [show (decide True) = true from rfl, Bool.true_and]
        have := ih (off + d.length / 8) r hok2 hb2 hs2
        simpa [Defrag.pairsOf, Defrag.anyFinal] using this

/-- is_complete on a group holding a sub-collection of the built fragments
holds exactly when the collection is full. -/
theorem is_complete_sub (ds : List (List Nat)) (hok : Defrag.chunksOk ds = true)
    (hbl : 8 * 0 + Defrag.sumLen ds ≤ 65535) (g : Defrag.FragmentGroup)
    (sub : List Defrag.Fragment) (hfr : g.fragments = Defrag.pairsOf sub)
    (hsub : List.Sublist sub (Defrag.buildFrags 0 ds)) :
    (Defrag.is_complete g = true ↔ sub = Defrag.buildFrags 0 ds) := by
  unfold Defrag.is_complete
  rw [hfr]
  by_cases hnil : sub = []
  · subst hnil
    rw [if_pos (by simp [Defrag.pairsOf])]
    simp only [Bool.false_eq_true, false_iff]
    exact fun h => buildFrags_ne_nil ds 0 hok h.symm
  · rw [if_neg (by simp [Defrag.pairsOf, hnil])]
    rw [completeWalk_eq, Bool.false_or]
    exact chain_sel_iff ds 0 sub hok hbl hsub

/-- The buffer-size fold of reassemble over all built fragments yields the
total payload span. -/
theorem foldTotal_buildFrags (ds : List (List Nat)) :
    ∀ (off acc : Nat), Defrag.chunksOk ds = true →
      8 * off + Defrag.sumLen ds ≤ 65535 → acc ≤ 8 * off →
      List.foldl
        (fun total p =>
          let fragment_end := (p.1 * 8 % 65536 + p.2.length) % 65536
          if total < fragment_end then fragment_end else total)
        acc (Defrag.pairsOf (Defrag.buildFrags off ds)) =
        8 * off + Defrag.sumLen ds := by
  induction ds with
  | nil => intro off acc hok; simp [Defrag.chunksOk] at hok
  | cons d rest ih =>
    intro off acc hok hb hacc
    cases rest with
    | nil =>
      simp only [Defrag.chunksOk, decide_eq_true_eq] at hok
      have hdp : 0 < d.length := List.length_pos.mpr hok
      have hb' : 8 * off + d.length ≤ 65535 := by
        simp only [Defrag.sumLen, List.map_cons, List.map_nil, List.sum_cons,
          List.sum_nil] at hb
        omega
      simp only [Defrag.buildFrags, Defrag.pairsOf, List.map_cons, List.map_nil,
        List.foldl_cons, List.foldl_nil, Defrag.Fragment.new]
      have h3 : (off * 8 % 65536 + d.length % 65536) % 65536 = off * 8 + d.length := by
        rw [Nat.mod_eq_of_lt (by omega), Nat.mod_eq_of_lt (by omega),
          Nat.mod_eq_of_lt (by omega)]
      rw [h3, if_pos (by omega)]
      simp only [Defrag.sumLen, List.map_cons, List.map_nil, List.sum_cons,
        List.sum_nil]
      omega
    | cons d2 rest2 =>
      simp only [Defrag.chunksOk, Bool.and_eq_true, decide_eq_true_eq] at hok
      obtain ⟨⟨hd, hdvd⟩, hok2⟩ := hok
      have hdp : 0 < d.length := List.length_pos.mpr hd
      have h8 : d.length / 8 * 8 = d.length := Nat.div_mul_cancel
        (Nat.dvd_of_mod_eq_zero hdvd)
      have hsum : Defrag.sumLen (d :: d2 :: rest2) =
          d.length + Defrag.sumLen (d2 :: rest2) := by
        simp [Defrag.sumLen]
      have hb' : 8 * off + d.length ≤ 65535 := by rw [hsum] at hb; omega
      have hb2 : 8 * (off + d.length / 8) + Defrag.sumLen (d2 :: rest2) ≤ 65535 := by
        rw [hsum] at hb; omega
      simp only [Defrag.buildFrags, Defrag.pairsOf, List.map_cons,
        List.foldl_cons, Defrag.Fragment.new]
      have h3 : (off * 8 % 65536 + d.length % 65536) % 65536 = off * 8 + d.length := by
        rw [Nat.mod_eq_of_lt (by omega), Nat.mod_eq_of_lt (by omega),
          Nat.mod_eq_of_lt (by omega)]
      rw [h3, if_pos (by omega)]
      have hih := ih (off + d.length / 8) (off * 8 + d.length) hok2 hb2 (by omega)
      simp only [Defrag.pairsOf] at hih
      rw [hih, hsum]
      omega

/-- Dropping past an appended prefix. -/
theorem drop_append_len {α : Type} (l r : List α) (n : Nat) :
    (l ++ r).drop (l.length + n) = r.drop n := by
  induction l with
  | nil => simp
  | cons x t ih => simpa [Nat.succ_add] using ih

/-- Taking exactly an appended prefix. -/
theorem take_append_len {α : Type} (l r : List α) :
    (l ++ r).take l.length = l := by
  induction l with
  | nil => simp
  | cons x t ih => simp [ih]

/-- Dropping from a replicate. -/
theorem drop_replicate_add {α : Type} (n m : Nat) (a : α) :
    (List.replicate (n + m) a).drop n = List.replicate m a := by
  induction n with
  | zero => simp
  | succ k ih => simpa [Nat.succ_add, List.replicate_succ] using ih

/-- The write loop over all built fragments fills the zero buffer with the
chunks in order. -/
theorem writeFrags_buildFrags (ds : List (List Nat)) :
    ∀ (off : Nat) (pre : List Nat), Defrag.chunksOk ds = true →
      8 * off + Defrag.sumLen ds ≤ 65535 → pre.length = 8 * off →
      Defrag.writeFrags (Defrag.pairsOf (Defrag.buildFrags off ds))
        (pre ++ List.replicate (Defrag.sumLen ds) 0) =
        .ok (pre ++ ds.flatten) := by
  induction ds with
  | nil => intro off pre hok; simp [Defrag.chunksOk] at hok
  | cons d rest ih =>
    intro off pre hok hb hpre
    cases rest with
    | nil =>
      simp only [Defrag.chunksOk, decide_eq_true_eq] at hok
      have hdp : 0 < d.length := List.length_pos.mpr hok
      have hsum1 : Defrag.sumLen [d] = d.length := by simp [Defrag.sumLen]
      have hb' : 8 * off + d.length ≤ 65535 := by rw [hsum1] at hb; omega
      have hstart : off * 8 % 65536 = pre.length := by
        rw [Nat.mod_eq_of_lt (by omega)]; omega
      simp only [Defrag.buildFrags, Defrag.pairsOf, List.map_cons, List.map_nil,
        Defrag.writeFrags, Defrag.Fragment.new, hsum1, hstart]
      rw [if_neg (by simp)]
      rw [Defrag.writeAt, take_append_len]
      have hdrop : (pre ++ List.replicate d.length 0).drop (pre.length + d.length) = [] := by
        rw [drop_append_len]
        have h0 := drop_replicate_add d.length 0 (0 : Nat)
        simpa using h0
      rw [hdrop]
      simp
    | cons d2 rest2 =>
      simp only [Defrag.chunksOk, Bool.and_eq_true, decide_eq_true_eq] at hok
      obtain ⟨⟨hd, hdvd⟩, hok2⟩ := hok
      have hdp : 0 < d.length := List.length_pos.mpr hd
      have h8 : d.length / 8 * 8 = d.length := Nat.div_mul_cancel
        (Nat.dvd_of_mod_eq_zero hdvd)
      have hsum : Defrag.sumLen (d :: d2 :: rest2) =
          d.length + Defrag.sumLen (d2 :: rest2) := by
        simp [Defrag.sumLen]
      have hb' : 8 * off + d.length ≤ 65535 := by rw [hsum] at hb; omega
      have hb2 : 8 * (off + d.length / 8) + Defrag.sumLen (d2 :: rest2) ≤ 65535 := by
        rw [hsum] at hb; omega
      have hstart : off * 8 % 65536 = pre.length := by
        rw [Nat.mod_eq_of_lt (by omega)]; omega
      simp only [Defrag.buildFrags, Defrag.pairsOf, List.map_cons,
        Defrag.writeFrags, Defrag.Fragment.new, hsum, hstart]
      rw [if_neg (by simp)]
      rw [Defrag.writeAt, take_append_len]
      have hdrop : (pre ++ List.replicate (d.length + Defrag.sumLen (d2 :: rest2)) 0).drop
          (pre.length + d.length) =
          List.replicate (Defrag.sumLen (d2 :: rest2)) 0 := by
        rw [drop_append_len, drop_replicate_add]
      rw [hdrop]
      have hih := ih (off + d.length / 8) (pre ++ d) hok2 hb2
        (by simp [hpre]; omega)
      simp only [Defrag.pairsOf] at hih
      rw [show pre ++ d ++ List.replicate (Defrag.sumLen (d2 :: rest2)) 0 =
          (pre ++ d) ++ List.replicate (Defrag.sumLen (d2 :: rest2)) 0 from by
            simp, hih]
      simp

/-- reassemble on the full collection of built fragments returns the original
payload. -/
theorem reassemble_full (ds : List (List Nat)) (hok : Defrag.chunksOk ds = true)
    (hb : Defrag.sumLen ds ≤ 65535) (g : Defrag.FragmentGroup)
    (hfr : g.fragments = Defrag.pairsOf (Defrag.buildFrags 0 ds)) :
    Defrag.reassemble g = .ok ds.flatten := by
  have hcomp : Defrag.is_complete g = true :=
    (is_complete_sub ds hok (by omega) g _ hfr (List.Sublist.refl _)).mpr rfl
  unfold Defrag.reassemble
  rw [hcomp, if_neg (by simp)]
  rw [hfr]
  have htot : Defrag.reassembleTotal (Defrag.pairsOf (Defrag.buildFrags 0 ds)) =
      Defrag.sumLen ds := by
    unfold Defrag.reassembleTotal
    have h := foldTotal_buildFrags ds 0 0 hok (by omega) (by omega)
    simpa using h
  rw [htot]
  have h := writeFrags_buildFrags ds 0 [] hok (by omega) rfl
  simpa using h

/-- Removing one more offset from the not-yet-received set is a filter. -/
theorem rem_cons_filter (F : List Defrag.Fragment) (o : Nat) (os : List Nat) :
    (Defrag.remOffsets F os).filter (fun g => !decide (g.offset = o)) =
      Defrag.remOffsets F (o :: os) := by
  unfold Defrag.remOffsets
  rw [List.filter_filter]
  apply List.filter_congr
  intro x _
  by_cases h1 : x.offset = o <;> by_cases h2 : x.offset ∈ os <;>
    simp [h1, h2]

/-- In a strictly offset-sorted list, filtering for one member's offset
leaves exactly that member. -/
theorem filter_offset_eq_singleton :
    ∀ (l : List Defrag.Fragment),
      l.Pairwise (fun x y => x.offset < y.offset) →
      ∀ a ∈ l, l.filter (fun g => decide (g.offset = a.offset)) = [a] := by
  intro l
  induction l with
  | nil => intro _ a ha; simp at ha
  | cons x r ih =>
    intro hp a ha
    rw [List.pairwise_cons] at hp
    obtain ⟨hx, hp2⟩ := hp
    rcases List.mem_cons.mp ha with rfl | har
    · rw [List.filter_cons_of_pos (by simp)]
      have hnil : r.filter (fun g => decide (g.offset = a.offset)) = [] := by
        rw [List.filter_eq_nil_iff]
        intro y hy
        have := hx y hy
        simp
        omega
      rw [hnil]
    · have hlt := hx a har
      rw [List.filter_cons_of_neg (by simp; omega)]
      exact ih hp2 a har

/-- Membership in the not-yet-received set. -/
theorem mem_rem (F : List Defrag.Fragment) (os : List Nat) (a : Defrag.Fragment) :
    a ∈ Defrag.remOffsets F os ↔ (a ∈ F ∧ a.offset ∉ os) := by
  unfold Defrag.remOffsets
  rw [List.mem_filter]
  simp

/-- Receiving one missing fragment splits the missing set. -/
theorem rem_perm_cons (F : List Defrag.Fragment)
    (hst : F.Pairwise (fun x y => x.offset < y.offset)) (os : List Nat)
    (a : Defrag.Fragment) (ha : a ∈ Defrag.remOffsets F os) :
    List.Perm (Defrag.remOffsets F os)
      (a :: Defrag.remOffsets F (a.offset :: os)) := by
  have hsplit := List.filter_append_perm
    (fun g => !decide (g.offset = a.offset)) (Defrag.remOffsets F os)
  have hprem : (Defrag.remOffsets F os).Pairwise
      (fun x y => x.offset < y.offset) :=
    hst.sublist (List.filter_sublist F)
  have hsingle : (Defrag.remOffsets F os).filter
      (fun g => !!decide (g.offset = a.offset)) = [a] := by
    have hcongr : (Defrag.remOffsets F os).filter
        (fun g => !!decide (g.offset = a.offset)) =
        (Defrag.remOffsets F os).filter
          (fun g => decide (g.offset = a.offset)) := by
      apply List.filter_congr
      intro x _
      simp
    rw [hcongr]
    exact filter_offset_eq_singleton _ hprem a ha
  rw [rem_cons_filter, hsingle] at hsplit
  exact hsplit.symm.trans (List.perm_append_singleton _ _)

/-- Rebuilding a fragment from its own fields is the identity (given the
u16 length-field identity). -/
theorem fragment_eta (f : Defrag.Fragment) (h : f.length = f.data.length % 65536) :
    Defrag.Fragment.new f.offset f.data f.more_fragments = f := by
  obtain ⟨o, d, m, l⟩ := f
  simp only at h
  rw [h]
  rfl

/-- Full selection exactly when nothing is missing. -/
theorem sel_full_iff_rem_nil (F : List Defrag.Fragment) (os : List Nat) :
    Defrag.selOffsets F os = F ↔ Defrag.remOffsets F os = [] := by
  simp [Defrag.selOffsets, Defrag.remOffsets, List.filter_eq_self,
    List.filter_eq_nil_iff]

/-- Nothing is missing before any offset is received. -/
theorem rem_nil (F : List Defrag.Fragment) : Defrag.remOffsets F [] = F := by
  simp [Defrag.remOffsets]

/-- One defragmenter call on the single tracked group: a missing fragment is
inserted; the call reports the reassembled packet exactly when the collection
becomes full, and otherwise keeps the enlarged group. -/
theorem defrag_step (ds : List (List Nat)) (sip dip ident now : Nat)
    (hok : Defrag.chunksOk ds = true) (hb : Defrag.sumLen ds ≤ 65515)
    (st : Defrag.DefragStats) (g : Defrag.FragmentGroup) (os : List Nat)
    (a : Defrag.Fragment) (ha : a ∈ Defrag.buildFrags 0 ds) (hano : a.offset ∉ os)
    (hgf : g.fragments =
      Defrag.pairsOf (Defrag.selOffsets (Defrag.buildFrags 0 ds) os))
    (hgl : g.last_update = now) :
    ((Defrag.process_packet ⟨[((sip, dip, ident), g)], st, .First,
        Defrag.MAX_FRAGMENT_GROUPS⟩ (Defrag.mkFragPkt sip dip ident a) now).1 =
      if Defrag.selOffsets (Defrag.buildFrags 0 ds) (a.offset :: os) =
          Defrag.buildFrags 0 ds
        then .ok (some (Defrag.expectedReassembled sip dip ident ds.flatten))
        else .ok none) ∧
    (Defrag.selOffsets (Defrag.buildFrags 0 ds) (a.offset :: os) ≠
        Defrag.buildFrags 0 ds →
      ∃ g2 st2,
        (Defrag.process_packet ⟨[((sip, dip, ident), g)], st, .First,
            Defrag.MAX_FRAGMENT_GROUPS⟩ (Defrag.mkFragPkt sip dip ident a) now).2 =
          ⟨[((sip, dip, ident), g2)], st2, .First, Defrag.MAX_FRAGMENT_GROUPS⟩ ∧
        g2.fragments = Defrag.pairsOf (Defrag.selOffsets (Defrag.buildFrags 0 ds)
          (a.offset :: os)) ∧
        g2.last_update = now) := by
  obtain ⟨-, hspan, hlenf, hdne⟩ := mem_buildFrags ds 0 a hok ha
  have hdpos : 0 < a.data.length := List.length_pos.mpr hdne
  have hfrageta : Defrag.Fragment.new a.offset a.data a.more_fragments = a :=
    fragment_eta a hlenf
  have hstF : (Defrag.buildFrags 0 ds).Pairwise (fun x y => x.offset < y.offset) :=
    offsets_strictmono_buildFrags ds 0 hok
  have hval : Defrag.validate_fragment_packet (Defrag.mkFragPkt sip dip ident a)
      = true := by
    have h1 : ¬ (65535 < a.offset) := by omega
    have h2 : ¬ (65535 < a.data.length) := by omega
    simp [Defrag.validate_fragment_packet, Defrag.mkFragPkt,
      Defrag.MAX_FRAGMENT_SIZE, h1, h2]
  have hmiss : alookup g.fragments a.offset = none := by
    rw [hgf]
    apply alookup_pairsOf_none
    intro x hx
    have hxos : x.offset ∈ os := by
      have h := List.of_mem_filter hx
      simpa using h
    exact fun he => hano (he ▸ hxos)
  have hnoov : (g.fragments.any fun p => Defrag.overlaps_with a p.2) = false := by
    rw [hgf]
    simp only [Defrag.pairsOf, List.any_eq_false]
    intro p hp
    obtain ⟨x, hx, rfl⟩ := List.mem_map.mp hp
    rw [no_overlap_sel ds hok (by omega) os a ha hano x hx]
    simp
  have hadd : Defrag.add_fragment g a =
      (true, { g with fragments := sortedInsert g.fragments a.offset a }) := by
    simp [Defrag.add_fragment, hmiss, hnoov]
  have hins : sortedInsert g.fragments a.offset a =
      Defrag.pairsOf (Defrag.selOffsets (Defrag.buildFrags 0 ds)
        (a.offset :: os)) := by
    rw [hgf]
    exact sortedInsert_sel (Defrag.buildFrags 0 ds) hstF os a ha hano
  have hsip : (Defrag.mkFragPkt sip dip ident a).ip_header.source_ip = sip := rfl
  have hdip : (Defrag.mkFragPkt sip dip ident a).ip_header.dest_ip = dip := rfl
  have hident : (Defrag.mkFragPkt sip dip ident a).ip_header.identification =
    ident := rfl
  have hfo : (Defrag.mkFragPkt sip dip ident a).ip_header.fragment_offset =
    a.offset := rfl
  have hmf : (Defrag.mkFragPkt sip dip ident a).ip_header.more_fragments =
    a.more_fragments := rfl
  have hproto : (Defrag.mkFragPkt sip dip ident a).ip_header.protocol = 6 := rfl
  have htp : Defrag.transportPayload (Defrag.mkFragPkt sip dip ident a) =
    a.data := rfl
  by_cases hcase : Defrag.selOffsets (Defrag.buildFrags 0 ds) (a.offset :: os) =
      Defrag.buildFrags 0 ds
  · have hic : Defrag.is_complete
        { g with fragments := sortedInsert g.fragments a.offset a,
                 last_update := now } = true := by
      refine (is_complete_sub ds hok (by omega) _ _ ?_ ?_).mpr hcase
      · rw [hins]
      · rw [hcase]
    have hre : Defrag.reassemble
        { g with fragments := sortedInsert g.fragments a.offset a,
                 last_update := now } = .ok ds.flatten := by
      apply reassemble_full ds hok (by omega)
      rw [hins, hcase]
    have hbb : (List.map List.length ds).sum ≤ 65515 := hb
    have hcreate : Defrag.create_reassembled_packet
        (Defrag.mkFragPkt sip dip ident a) ds.flatten =
        Defrag.expectedReassembled sip dip ident ds.flatten := by
      have hmod : ((List.map List.length ds).sum + 20) % 65536 =
          (List.map List.length ds).sum + 20 := by omega
      simp only [Defrag.create_reassembled_packet, Defrag.mkFragPkt,
        Defrag.expectedReassembled]
      simp [hmod]
    constructor
    · simp only [Defrag.process_packet, hval, Defrag.cleanup_expired_groups,
        Defrag.is_expired, hgl, Nat.sub_self, hsip, hdip, hident, hfo, hmf,
        hproto, htp, hfrageta, hadd, hic, hre, hcreate, hcase]
      simp [alookup, aupsert, aerase, Option.getD, Defrag.MAX_FRAGMENT_GROUPS,
        Defrag.FRAGMENT_TIMEOUT, hgl, hadd, hic, hre, hcreate, hcase]
    · intro hne
      exact absurd hcase hne
  · have hic : Defrag.is_complete
        { g with fragments := sortedInsert g.fragments a.offset a,
                 last_update := now } = false := by
      rw [Bool.eq_false_iff]
      intro hc
      apply hcase
      refine (is_complete_sub ds hok (by omega) _ _ ?_ ?_).mp hc
      · rw [hins]
      · exact (List.filter_sublist _)
    refine ⟨?_, ?_⟩
    · simp only [Defrag.process_packet, hval, Defrag.cleanup_expired_groups,
        Defrag.is_expired, hgl, Nat.sub_self, hsip, hdip, hident, hfo, hmf,
        hproto, htp, hfrageta, hadd, hic]
      simp [alookup, aupsert, aerase, Option.getD, Defrag.MAX_FRAGMENT_GROUPS,
        Defrag.FRAGMENT_TIMEOUT, hgl, hadd, hic, hcase]
    · intro _
      refine ⟨⟨sortedInsert g.fragments a.offset a, g.total_length, now,
        g.policy, g.source_ip, g.dest_ip, g.identification, g.protocol,
        g.flags, g.ttl, g.tos⟩,
        ⟨st.total_fragments + 1, st.total_length + a.data.length,
          st.expired_groups, st.reassembled_packets, st.overlapping_fragments⟩,
        ?_, hins, rfl⟩
      simp only [Defrag.process_packet, hval, Defrag.cleanup_expired_groups,
        Defrag.is_expired, hgl, Nat.sub_self, hsip, hdip, hident, hfo, hmf,
        hproto, htp, hfrageta, hadd, hic]
      simp [alookup, aupsert, aerase, Option.getD, Defrag.MAX_FRAGMENT_GROUPS,
        Defrag.FRAGMENT_TIMEOUT, hgl, hadd, hic]

/-- The first defragmenter call of a flow: the fragment opens a fresh group;
a reassembled packet is reported exactly when this one fragment is already
the whole payload. -/
theorem defrag_first (ds : List (List Nat)) (sip dip ident now : Nat)
    (hok : Defrag.chunksOk ds = true) (hb : Defrag.sumLen ds ≤ 65515)
    (st : Defrag.DefragStats) (a : Defrag.Fragment)
    (ha : a ∈ Defrag.buildFrags 0 ds) :
    ((Defrag.process_packet ⟨[], st, .First, Defrag.MAX_FRAGMENT_GROUPS⟩
        (Defrag.mkFragPkt sip dip ident a) now).1 =
      if Defrag.selOffsets (Defrag.buildFrags 0 ds) [a.offset] =
          Defrag.buildFrags 0 ds
        then .ok (some (Defrag.expectedReassembled sip dip ident ds.flatten))
        else .ok none) ∧
    (Defrag.selOffsets (Defrag.buildFrags 0 ds) [a.offset] ≠
        Defrag.buildFrags 0 ds →
      ∃ g2 st2,
        (Defrag.process_packet ⟨[], st, .First, Defrag.MAX_FRAGMENT_GROUPS⟩
            (Defrag.mkFragPkt sip dip ident a) now).2 =
          ⟨[((sip, dip, ident), g2)], st2, .First, Defrag.MAX_FRAGMENT_GROUPS⟩ ∧
        g2.fragments = Defrag.pairsOf (Defrag.selOffsets (Defrag.buildFrags 0 ds)
          [a.offset]) ∧
        g2.last_update = now) := by
  obtain ⟨-, hspan, hlenf, hdne⟩ := mem_buildFrags ds 0 a hok ha
  have hdpos : 0 < a.data.length := List.length_pos.mpr hdne
  have hfrageta : Defrag.Fragment.new a.offset a.data a.more_fragments = a :=
    fragment_eta a hlenf
  have hstF : (Defrag.buildFrags 0 ds).Pairwise (fun x y => x.offset < y.offset) :=
    offsets_strictmono_buildFrags ds 0 hok
  have hval : Defrag.validate_fragment_packet (Defrag.mkFragPkt sip dip ident a)
      = true := by
    have h1 : ¬ (65535 < a.offset) := by omega
    have h2 : ¬ (65535 < a.data.length) := by omega
    simp [Defrag.validate_fragment_packet, Defrag.mkFragPkt,
      Defrag.MAX_FRAGMENT_SIZE, h1, h2]
  have hins : sortedInsert ([] : List (Nat × Defrag.Fragment)) a.offset a =
      Defrag.pairsOf (Defrag.selOffsets (Defrag.buildFrags 0 ds) [a.offset]) := by
    have h := sortedInsert_sel (Defrag.buildFrags 0 ds) hstF [] a ha (by simp)
    rw [sel_nil] at h
    simpa [Defrag.pairsOf] using h
  have hsip : (Defrag.mkFragPkt sip dip ident a).ip_header.source_ip = sip := rfl
  have hdip : (Defrag.mkFragPkt sip dip ident a).ip_header.dest_ip = dip := rfl
  have hident : (Defrag.mkFragPkt sip dip ident a).ip_header.identification =
    ident := rfl
  have hfo : (Defrag.mkFragPkt sip dip ident a).ip_header.fragment_offset =
    a.offset := rfl
  have hmf : (Defrag.mkFragPkt sip dip ident a).ip_header.more_fragments =
    a.more_fragments := rfl
  have hproto : (Defrag.mkFragPkt sip dip ident a).ip_header.protocol = 6 := rfl
  have htp : Defrag.transportPayload (Defrag.mkFragPkt sip dip ident a) =
    a.data := rfl
  by_cases hcase : Defrag.selOffsets (Defrag.buildFrags 0 ds) [a.offset] =
      Defrag.buildFrags 0 ds
  · have hic : Defrag.is_complete
        ⟨sortedInsert [] a.offset a, 0, now, .First, sip, dip, ident, 6, 0,
          64, 0⟩ = true := by
      refine (is_complete_sub ds hok (by omega) _ _ ?_ ?_).mpr hcase
      · exact hins
      · rw [hcase]
    have hre : Defrag.reassemble
        ⟨sortedInsert [] a.offset a, 0, now, .First, sip, dip, ident, 6, 0,
          64, 0⟩ = .ok ds.flatten := by
      apply reassemble_full ds hok (by omega)
      exact hins.trans (congrArg Defrag.pairsOf hcase)
    have hbb : (List.map List.length ds).sum ≤ 65515 := hb
    have hcreate : Defrag.create_reassembled_packet
        (Defrag.mkFragPkt sip dip ident a) ds.flatten =
        Defrag.expectedReassembled sip dip ident ds.flatten := by
      have hmod : ((List.map List.length ds).sum + 20) % 65536 =
          (List.map List.length ds).sum + 20 := by omega
      simp only [Defrag.create_reassembled_packet, Defrag.mkFragPkt,
        Defrag.expectedReassembled]
      simp [hmod]
    constructor
    · simp only [Defrag.process_packet, hval, Defrag.cleanup_expired_groups,
        Defrag.is_expired, hsip, hdip, hident, hfo, hmf, hproto, htp,
        hfrageta, Defrag.FragmentGroup.new, hic, hre, hcreate, hcase]
      simp [Defrag.add_fragment, alookup, aupsert, aerase, Option.getD,
        Defrag.MAX_FRAGMENT_GROUPS, Defrag.FRAGMENT_TIMEOUT,
        Defrag.FragmentGroup.new, hfrageta, hic, hre, hcreate, hcase]
    · intro hne
      exact absurd hcase hne
  · have hic : Defrag.is_complete
        ⟨sortedInsert [] a.offset a, 0, now, .First, sip, dip, ident, 6, 0,
          64, 0⟩ = false := by
      rw [Bool.eq_false_iff]
      intro hc
      apply hcase
      refine (is_complete_sub ds hok (by omega) _ _ ?_ ?_).mp hc
      · exact hins
      · exact (List.filter_sublist _)
    refine ⟨?_, ?_⟩
    · simp only [Defrag.process_packet, hval, Defrag.cleanup_expired_groups,
        Defrag.is_expired, hsip, hdip, hident, hfo, hmf, hproto, htp,
        hfrageta, Defrag.FragmentGroup.new, hic]
      simp [Defrag.add_fragment, alookup, aupsert, aerase, Option.getD,
        Defrag.MAX_FRAGMENT_GROUPS, Defrag.FRAGMENT_TIMEOUT,
        Defrag.FragmentGroup.new, hfrageta, hic, hcase]
    · intro _
      refine ⟨⟨sortedInsert [] a.offset a, 0, now, .First, sip, dip, ident, 6,
        0, 64, 0⟩,
        ⟨st.total_fragments + 1, st.total_length + a.data.length,
          st.expired_groups, st.reassembled_packets, st.overlapping_fragments⟩,
        ?_, hins, rfl⟩
      simp only [Defrag.process_packet, hval, Defrag.cleanup_expired_groups,
        Defrag.is_expired, hsip, hdip, hident, hfo, hmf, hproto, htp,
        hfrageta, Defrag.FragmentGroup.new, hic]
      simp [Defrag.add_fragment, alookup, aupsert, aerase, Option.getD,
        Defrag.MAX_FRAGMENT_GROUPS, Defrag.FRAGMENT_TIMEOUT,
        Defrag.FragmentGroup.new, hfrageta, hic]

/-- Feeding any permutation of the missing fragments into the tracked group:
every call but the last returns no packet, and the last returns the
reassembled payload. -/
theorem defrag_feed (ds : List (List Nat)) (sip dip ident now : Nat)
    (hok : Defrag.chunksOk ds = true) (hb : Defrag.sumLen ds ≤ 65515) :
    ∀ (arr : List Defrag.Fragment) (os : List Nat) (st : Defrag.DefragStats)
      (g : Defrag.FragmentGroup),
      List.Perm arr (Defrag.remOffsets (Defrag.buildFrags 0 ds) os) →
      arr ≠ [] →
      g.fragments = Defrag.pairsOf (Defrag.selOffsets (Defrag.buildFrags 0 ds) os) →
      g.last_update = now →
      (Defrag.runDefrag ⟨[((sip, dip, ident), g)], st, .First,
          Defrag.MAX_FRAGMENT_GROUPS⟩ now
        (arr.map (Defrag.mkFragPkt sip dip ident))).1 =
        List.replicate (arr.length - 1) (.ok none) ++
          [.ok (some (Defrag.expectedReassembled sip dip ident ds.flatten))] := by
  intro arr
  induction arr with
  | nil => intro os st g hperm hne; exact absurd rfl hne
  | cons a tl ih =>
    intro os st g hperm hne hgf hgl
    have hstF : (Defrag.buildFrags 0 ds).Pairwise
        (fun x y => x.offset < y.offset) :=
      offsets_strictmono_buildFrags ds 0 hok
    have haF : a ∈ Defrag.remOffsets (Defrag.buildFrags 0 ds) os :=
      hperm.mem_iff.mp (by simp)
    obtain ⟨haB, hano⟩ := (mem_rem _ _ _).mp haF
    have hpc := rem_perm_cons (Defrag.buildFrags 0 ds) hstF os a haF
    have htlperm : List.Perm tl
        (Defrag.remOffsets (Defrag.buildFrags 0 ds) (a.offset :: os)) :=
      (hperm.trans hpc).cons_inv
    have hstep := defrag_step ds sip dip ident now hok hb st g os a haB hano
      hgf hgl
    simp only [List.map_cons, Defrag.runDefrag]
    cases tl with
    | nil =>
      have hremnil : Defrag.remOffsets (Defrag.buildFrags 0 ds)
          (a.offset :: os) = [] :=
        List.perm_nil.mp htlperm.symm
      have hfull : Defrag.selOffsets (Defrag.buildFrags 0 ds) (a.offset :: os) =
          Defrag.buildFrags 0 ds :=
        (sel_full_iff_rem_nil _ _).mpr hremnil
      simp only [List.map_nil, Defrag.runDefrag]
      rw [hstep.1, if_pos hfull]
      simp
    | cons b tl2 =>
      have hnotfull : Defrag.selOffsets (Defrag.buildFrags 0 ds)
          (a.offset :: os) ≠ Defrag.buildFrags 0 ds := by
        intro hfull
        have hremnil := (sel_full_iff_rem_nil _ _).mp hfull
        rw [hremnil] at htlperm
        exact absurd (List.perm_nil.mp htlperm) (by simp)
      obtain ⟨g2, st2, hst2, hgf2, hgl2⟩ := hstep.2 hnotfull
      rw [hstep.1, if_neg hnotfull, hst2]
      have hh := ih (a.offset :: os) st2 g2 htlperm (by simp) hgf2 hgl2
      rw [hh]
      simp [List.replicate_succ]

/-- C4: for any splitting of a payload into non-overlapping, contiguous,
MF-correct fragments and any arrival order of those fragments, the
defragmenter returns None on every call but the last and, on the last
fragment, the reassembled packet: payload = the original bytes,
fragment_offset 0, more_fragments false, total_length = payload + 20
(all recorded in expectedReassembled). -/
theorem C4_fragment_reassembly (ds : List (List Nat)) (sip dip ident now : Nat)
    (arr : List Defrag.Fragment)
    (hok : Defrag.chunksOk ds = true)
    (hb : Defrag.sumLen ds ≤ 65515)
    (hperm : List.Perm arr (Defrag.buildFrags 0 ds)) :
    (Defrag.runDefrag Defrag.IpDefragmenter.new now
        (arr.map (Defrag.mkFragPkt sip dip ident))).1 =
      List.replicate (arr.length - 1) (.ok none) ++
        [.ok (some (Defrag.expectedReassembled sip dip ident ds.flatten))] := by
  cases arr with
  | nil =>
    exact absurd (List.perm_nil.mp hperm.symm) (buildFrags_ne_nil ds 0 hok)
  | cons a tl =>
    have hstF : (Defrag.buildFrags 0 ds).Pairwise
        (fun x y => x.offset < y.offset) :=
      offsets_strictmono_buildFrags ds 0 hok
    have hperm0 : List.Perm (a :: tl)
        (Defrag.remOffsets (Defrag.buildFrags 0 ds) []) := by
      rw [rem_nil]; exact hperm
    have haF : a ∈ Defrag.remOffsets (Defrag.buildFrags 0 ds) [] :=
      hperm0.mem_iff.mp (by simp)
    obtain ⟨haB, -⟩ := (mem_rem _ _ _).mp haF
    have hpc := rem_perm_cons (Defrag.buildFrags 0 ds) hstF [] a haF
    have htlperm : List.Perm tl
        (Defrag.remOffsets (Defrag.buildFrags 0 ds) [a.offset]) :=
      (hperm0.trans hpc).cons_inv
    have hfirst := defrag_first ds sip dip ident now hok hb
      Defrag.DefragStats.new a haB
    rw [show Defrag.IpDefragmenter.new =
      ⟨[], Defrag.DefragStats.new, .First, Defrag.MAX_FRAGMENT_GROUPS⟩ from rfl]
    simp only [List.map_cons, Defrag.runDefrag]
    cases tl with
    | nil =>
      have hremnil : Defrag.remOffsets (Defrag.buildFrags 0 ds) [a.offset] = [] :=
        List.perm_nil.mp htlperm.symm
      have hfull : Defrag.selOffsets (Defrag.buildFrags 0 ds) [a.offset] =
          Defrag.buildFrags 0 ds :=
        (sel_full_iff_rem_nil _ _).mpr hremnil
      simp only [List.map_nil, Defrag.runDefrag]
      rw [hfirst.1, if_pos hfull]
      simp
    | cons b tl2 =>
      have hnotfull : Defrag.selOffsets (Defrag.buildFrags 0 ds) [a.offset] ≠
          Defrag.buildFrags 0 ds := by
        intro hfull
        have hremnil := (sel_full_iff_rem_nil _ _).mp hfull
        rw [hremnil] at htlperm
        exact absurd (List.perm_nil.mp htlperm) (by simp)
      obtain ⟨g2, st2, hst2, hgf2, hgl2⟩ := hfirst.2 hnotfull
      rw [hfirst.1, if_neg hnotfull, hst2]
      have hh := defrag_feed ds sip dip ident now hok hb (b :: tl2) [a.offset]
        st2 g2 htlperm (by simp) hgf2 hgl2
      rw [hh]
      simp [List.replicate_succ]

/-- Witness for C4 at the spec's concrete scenario S2: fragments "abcdefgh"
(offset 0, MF set) and "ijkl" (offset 1, MF clear) arriving out of order
reassemble to "abcdefghijkl" with total_length 32. -/
theorem C4_witness :
    (Defrag.runDefrag Defrag.IpDefragmenter.new 0
        ([Defrag.Fragment.new 1 [105,106,107,108] false,
          Defrag.Fragment.new 0 [97,98,99,100,101,102,103,104] true].map
          (Defrag.mkFragPkt 1 2 7))).1 =
      List.replicate 1 (.ok none) ++
        [.ok (some (Defrag.expectedReassembled 1 2 7
          [97,98,99,100,101,102,103,104,105,106,107,108]))] := by
  have h := C4_fragment_reassembly
    [[97,98,99,100,101,102,103,104],[105,106,107,108]] 1 2 7 0
    [Defrag.Fragment.new 1 [105,106,107,108] false,
      Defrag.Fragment.new 0 [97,98,99,100,101,102,103,104] true]
    (by decide) (by decide) (by decide)
  exact h
